import Mathlib

/-!
# A shallow embedding of `src/pdf.go` (package canvas)

`src/pdf.go` implements a single-pass PDF writer: a `PDFWriter` wraps an
output sink, tracks the cumulative byte position `pos`, records the starting
offset of every indirect object in `objOffsets`, caches opacity and font
resources, and on `Close` emits the Page/Pages/Catalog objects, the
cross-reference table and the trailer.

Modelling conventions, chosen to stay byte-faithful to the Go source:

* Output bytes are `List Char`, one `Char` per byte; every literal the writer
  emits is ASCII, and opaque payloads are arbitrary char lists.
* Go `float64` values (width, height, opacity levels) are modelled as `ℚ`;
  their `fmt`-formatting, and the two stdlib stream encoders
  (`compress/zlib`, `encoding/ascii85`), are external to this repository and
  are abstracted as a `Codecs` parameter threaded through the definitions.
* A Go map (`PDFDict`, `graphicsStates`, `fonts`) is modelled as an
  association list in insertion order with unique keys.  Go's map iteration
  order is unspecified and deliberately randomized by the runtime; the
  embedding fixes insertion order as the iteration order, and the dependence
  of the rendered bytes on the iteration order is treated explicitly where a
  claim is about that order.
* The sink (`io.Writer`) is modelled as a list of responses, one consumed per
  `Write` call; a compliant sink accepts some prefix of the bytes handed to
  it and reports an error exactly when the accepted prefix is proper
  (the `io.Writer` contract).  Consecutive writes of one rendering are
  coalesced into a single `writeBytes` call; a mid-render failure is
  represented by the response accepting the corresponding prefix length.
* `panic` (in `GetFont`) is modelled as `Except.error`.
-/

namespace Canvas

/-- Output bytes (`[]byte` / `string` on the Go side), one `Char` per byte. -/
abbrev Bytes := List Char

/-- Byte form of a Lean string literal. -/
def lit (s : String) : Bytes := s.toList

/-- `type PDFFilter string` (pdf.go line 61). -/
abbrev PDFFilter := String

/-- `PDFFilterASCII85 PDFFilter = "ASCII85Decode"` (pdf.go line 69). -/
def PDFFilterASCII85 : PDFFilter := "ASCII85Decode"

/-- `PDFFilterFlate PDFFilter = "FlateDecode"` (pdf.go line 70). -/
def PDFFilterFlate : PDFFilter := "FlateDecode"

/-- The external codecs `pdf.go` delegates to: `fmt`'s `%v` formatting of a
`float64`, the `encoding/ascii85` encoder and the `compress/zlib` encoder.
These live outside this repository, so they are abstract parameters of the
embedding. -/
structure Codecs where
  fmtReal : ℚ → String
  encA85 : Bytes → Bytes
  encFlate : Bytes → Bytes

/-- The dynamic values `writeVal` (pdf.go lines 73-141) dispatches on: the Go
code switches on `int`, `float64`, `string`, `PDFRef`, `PDFName`, `PDFArray`,
`PDFDict` and `PDFStream`.  `unsupported` stands for any other dynamic type
(e.g. a `bool` or an `int64`), for which the type switch has no case and
`writeVal` emits nothing.  `PDFDict` is an association list in insertion
order (see the module comment on Go map iteration order). -/
inductive PDFVal where
  | int (n : ℤ)
  | real (q : ℚ)
  | str (s : String)
  | ref (n : ℤ)
  | name (s : String)
  | arr (xs : List PDFVal)
  | dict (d : List (String × PDFVal))
  | stream (d : List (String × PDFVal)) (filters : List PDFFilter) (b : Bytes)
  | unsupported

/-- Association-list lookup (the read side of a Go map access). -/
def lookupA {α β : Type} [DecidableEq α] : List (α × β) → α → Option β
  | [], _ => none
  | (k, v) :: d, a => if k = a then some v else lookupA d a

/-- Association-list update (`m[k] = v` on a Go map): replace the binding if
the key is present, otherwise append a new binding. -/
def setKey {α β : Type} [DecidableEq α] : List (α × β) → α → β → List (α × β)
  | [], k, v => [(k, v)]
  | (k', w) :: d, k, v =>
      if k' = k then (k, v) :: d else (k', w) :: setKey d k v

/-- The string escaping of `writeVal`'s `string` case (pdf.go lines 78-80):
`strings.Replace` of `\` by `\\`, then `(` by `\(`, then `)` by `\)`.
Since the first pass is the only one that introduces backslashes and the
later passes only prepend a backslash to parenthesis characters, the three
sequential passes are equivalent to this single character-by-character
expansion. -/
def pdfEscape (s : List Char) : Bytes :=
  (s.map (fun c => if c = '\\' ∨ c = '(' ∨ c = ')' then ['\\', c] else [c])).flatten

/-- The `filters` array built at pdf.go lines 105-108: the stream's filters
as `PDFName`s in reverse (decode) order. -/
def filterNames (fs : List PDFFilter) : List PDFVal :=
  fs.reverse.map (fun f => PDFVal.name f)

/-- The value stored under `Filter` (pdf.go lines 130-134): nothing when
there are no filters, the single name when there is one, the reversed name
array when there are several. -/
def filterEntry (fs : List PDFFilter) : Option PDFVal :=
  match filterNames fs with
  | [] => none
  | [x] => some x
  | xs => some (.arr xs)

/-- One step of the encoding loop at pdf.go lines 111-124: the `switch` on
the filter name inside the loop body.  An unrecognized filter name leaves the
fresh buffer `b2` empty, so the payload becomes empty. -/
def applyFilter (C : Codecs) (f : PDFFilter) (b : Bytes) : Bytes :=
  if f = PDFFilterASCII85 then C.encA85 b
  else if f = PDFFilterFlate then C.encFlate b
  else []

/-- The encoding loop at pdf.go lines 110-124: `b` is re-encoded once per
listed filter, left to right. -/
def applyFilters (C : Codecs) : List PDFFilter → Bytes → Bytes
  | [], b => b
  | f :: fs, b => applyFilters C fs (applyFilter C f b)

/-- The stream dictionary after the mutations at pdf.go lines 126-135: start
from the stream's own dictionary (`nil` becomes empty, which the empty
association list already covers), store the `Filter` entry when there are
filters, then store `Length` = encoded byte count. -/
def streamDict (d : List (String × PDFVal)) (fs : List PDFFilter) (len : ℕ) :
    List (String × PDFVal) :=
  let d1 := match filterEntry fs with
    | none => d
    | some fv => setKey d "Filter" fv
  setKey d1 "Length" (.int len)

/-- Rendering of a `PDFName` (pdf.go line 85). -/
def renderName (s : String) : Bytes := '/' :: s.toList

/-- Rendered form of the injected `Filter` value, computed without recursion
into `PDFVal` (it only ever holds names): used by the stream case of
`renderVal` so that the renderer is structurally recursive. -/
def renderFilterNames : List PDFFilter → Bytes
  | [] => []
  | [f] => renderName f
  | f :: fs => renderName f ++ ' ' :: renderFilterNames fs

/-- Rendered form of the `Filter` value of `filterEntry`. -/
def renderFilterEntry (fs : List PDFFilter) : Bytes :=
  match fs.reverse with
  | [] => []
  | [f] => renderName f
  | gs => '[' :: renderFilterNames gs ++ [']']

/-- The injected stream-dictionary entries whose keys were absent from the
stream's own dictionary: appended after the original entries, `Filter`
first, then `Length` (the order of the two map stores at pdf.go lines
130-135 under the insertion-order convention). -/
def missingStreamEntries (fs : List PDFFilter) (L : ℕ)
    (d : List (String × PDFVal)) : Bytes :=
  (if fs ≠ [] ∧ (lookupA d "Filter").isNone then
    renderName "Filter" ++ ' ' :: renderFilterEntry fs ++ [' ']
  else []) ++
  (if (lookupA d "Length").isNone then
    renderName "Length" ++ ' ' :: lit (toString (L : ℤ)) ++ [' ']
  else [])

mutual
/-- `PDFWriter.writeVal` (pdf.go lines 73-141), as the pure bytes it sends to
the writer.  The dictionary case renders the entries in the association
list's (insertion) order; the stream case renders the mutated dictionary of
`streamDict` followed by the `stream`/`endstream` block; a value outside the
type switch renders as nothing. -/
def renderVal (C : Codecs) : PDFVal → Bytes
  | .int n => lit (toString n)
  | .real q => lit (C.fmtReal q)
  | .str s => '(' :: pdfEscape s.toList ++ [')']
  | .ref n => lit (toString n ++ " 0 R")
  | .name s => renderName s
  | .arr xs => '[' :: renderArr C xs ++ [']']
  | .dict d => lit "<< " ++ renderEntries C d ++ lit ">>"
  | .stream d fs b =>
      lit "<< " ++
        renderStreamEntries C fs (applyFilters C fs b).length d ++
        missingStreamEntries fs (applyFilters C fs b).length d ++
      lit ">>" ++ lit "\nstream\n" ++ applyFilters C fs b ++ lit "\nendstream"
  | .unsupported => []

/-- The `PDFArray` case of `writeVal` (pdf.go lines 86-94): space-separated
elements between brackets. -/
def renderArr (C : Codecs) : List PDFVal → Bytes
  | [] => []
  | [v] => renderVal C v
  | v :: vs => renderVal C v ++ ' ' :: renderArr C vs

/-- The `PDFDict` case of `writeVal` (pdf.go lines 95-103): `/Key Value `
for each entry, between `<< ` and `>>`. -/
def renderEntries (C : Codecs) : List (String × PDFVal) → Bytes
  | [] => []
  | (k, v) :: d => renderName k ++ ' ' :: renderVal C v ++ ' ' :: renderEntries C d

/-- The entries of the stream's own dictionary, with the values that
pdf.go lines 130-135 overwrite (`Filter` when there are filters, `Length`
always) replaced in place by the injected values.  Together with
`missingStreamEntries` this is exactly `renderEntries` of
`streamDict d fs L` (proved below as `renderVal_stream`); it is written this
way so the recursion stays structural. -/
def renderStreamEntries (C : Codecs) (fs : List PDFFilter) (L : ℕ) :
    List (String × PDFVal) → Bytes
  | [] => []
  | (k, v) :: d =>
      (if k = "Filter" ∧ fs ≠ [] then
        renderName "Filter" ++ ' ' :: renderFilterEntry fs ++ [' ']
      else if k = "Length" then
        renderName "Length" ++ ' ' :: lit (toString (L : ℤ)) ++ [' ']
      else renderName k ++ ' ' :: renderVal C v ++ [' ']) ++
      renderStreamEntries C fs L d
end

/-- Modelled from the spec: the `Font` collaborator is not part of
`src/` (pdf.go only uses `f.Raw()` and `f.name`).  Per the spec (§6) "the
font handle exposes its raw embeddable bytes and a format tag"; `pdf.go`
additionally keys its cache on the `*Font` pointer, so the model carries an
explicit `addr` standing for the Go pointer's memory identity. -/
structure Font where
  addr : ℕ
  fname : String
  mimetype : String
  raw : Bytes
  deriving DecidableEq

/-- `f.Raw()`: the format tag and the raw font bytes. -/
def Font.Raw (f : Font) : String × Bytes := (f.mimetype, f.raw)

/-- One response of the underlying sink (`io.Writer`) to one `Write` call.
`ok` accepts every byte without error; `fail n e` accepts the first `n`
bytes (clamped to the length handed in, per the `io.Writer` contract) and
returns the non-nil error `e`. -/
inductive SinkResp where
  | ok
  | fail (n : ℕ) (e : String)
  deriving DecidableEq

/-- The `PDFWriter` state (pdf.go lines 12-23), plus the sink model and the
bytes the sink has accepted so far (`out`), plus a ghost counter
`writeCalls` of how many times `WriteObject` has run.  `resources` is the
dictionary `{"ExtGState": {...}, "Font": {...}}`; its two sub-dictionaries
are kept as the association lists `resExtGState` (name ↦ opacity of the
`{"ca": a}` entry) and `resFont` (name ↦ font object reference). -/
structure PW where
  sink : List SinkResp
  out : Bytes
  err : Option String
  pos : ℕ
  objOffsets : List ℕ
  width : ℚ
  height : ℚ
  resExtGState : List (String × ℚ)
  resFont : List (String × ℤ)
  graphicsStates : List (ℚ × String)
  fonts : List (ℕ × String)
  writeCalls : ℕ

/-- `PDFWriter.writeBytes` / `PDFWriter.write` (pdf.go lines 39-55): a no-op
once `err` is set; otherwise hand the bytes to the sink, advance `pos` by
the count the sink reports, and latch the sink's error.  An exhausted
response list behaves like `ok`. -/
def writeBytes (s : PW) (b : Bytes) : PW :=
  if s.err.isSome then s
  else
    match s.sink with
    | [] => { s with out := s.out ++ b, pos := s.pos + b.length }
    | .ok :: rest =>
        { s with sink := rest, out := s.out ++ b, pos := s.pos + b.length }
    | .fail n e :: rest =>
        { s with sink := rest, out := s.out ++ b.take n,
                 pos := s.pos + (b.take n).length, err := some e }

/-- `NewPDFWriter` (pdf.go lines 25-37): fresh state, then the header line
(`fmt`'s `%%` formats as one `%`, so the bytes are `%PDF-1.7\n`). -/
def NewPDFWriter (sink : List SinkResp) (width height : ℚ) : PW :=
  writeBytes
    { sink := sink, out := [], err := none, pos := 0, objOffsets := []
      width := width, height := height
      resExtGState := [], resFont := []
      graphicsStates := [], fonts := [], writeCalls := 0 }
    (lit "%PDF-1.7\n")

/-- The `%v 0 obj\n` header line of object number `n`. -/
def objHeader (n : ℕ) : Bytes := lit (toString n ++ " 0 obj\n")

/-- `PDFWriter.WriteObject` (pdf.go lines 181-187): record the current
position as this object's offset, emit the header for object number
`len(objOffsets)`, the rendered value and the `endobj` marker, and return
the object number as a `PDFRef`. -/
def WriteObject (C : Codecs) (s : PW) (val : PDFVal) : PW × ℤ :=
  (writeBytes
    (writeBytes
      (writeBytes
        { s with objOffsets := s.objOffsets ++ [s.pos],
                 writeCalls := s.writeCalls + 1 }
        (objHeader (s.objOffsets.length + 1)))
      (renderVal C val))
    (lit "\nendobj\n"),
   (s.objOffsets.length : ℤ) + 1)

/-- `PDFWriter.GetOpacityGS` (pdf.go lines 143-153): cached name, or a fresh
`GS<n>` name registered in `graphicsStates` and, as `{"ca": a}`, in the
`ExtGState` sub-dictionary.  Nothing is written to the sink. -/
def GetOpacityGS (s : PW) (a : ℚ) : PW × String :=
  match lookupA s.graphicsStates a with
  | some name => (s, name)
  | none =>
      ({ s with
          graphicsStates := s.graphicsStates ++
            [(a, "GS" ++ toString s.graphicsStates.length)],
          resExtGState := s.resExtGState ++
            [("GS" ++ toString s.graphicsStates.length, a)] },
       "GS" ++ toString s.graphicsStates.length)

/-- The font-descriptor stream `GetFont` writes (pdf.go lines 167-173):
a `PDFStream` with only a dictionary (no filters, no payload). -/
def fontStream (baseFont : String) : PDFVal :=
  .stream [("Type", .name "Font"), ("Subtype", .name "TrueType"),
           ("BaseFont", .name baseFont)] [] []

/-- The registration path of `GetFont` for a new font with an accepted
format (pdf.go lines 166-178): write the font object, then add
`F<len(fonts)>` to the font cache and the `Font` sub-dictionary (the name
counter reads `len(w.fonts)` after the object write, exactly as the Go code
does). -/
def registerFont (C : Codecs) (s : PW) (f : Font) : PW × String :=
  match WriteObject C s (fontStream (f.fname.replace " " "_")) with
  | (s1, ref) =>
      ({ s1 with
          fonts := s1.fonts ++ [(f.addr, "F" ++ toString s1.fonts.length)],
          resFont := s1.resFont ++ [("F" ++ toString s1.fonts.length, ref)] },
       "F" ++ toString s1.fonts.length)

/-- `PDFWriter.GetFont` (pdf.go lines 155-179): cached name keyed on the
`*Font` pointer, else a fatal `panic` (modelled as `Except.error`) when the
format tag is not `font/ttf`, else the registration path. -/
def GetFont (C : Codecs) (s : PW) (f : Font) : Except String (PW × String) :=
  match lookupA s.fonts f.addr with
  | some name => .ok (s, name)
  | none =>
      if (Font.Raw f).1 ≠ "font/ttf" then
        .error "only TTF format support for embedding fonts in PDFs"
      else .ok (registerFont C s f)

/-- The `Contents` array built at pdf.go lines 190-193: one reference per
previously written object, in object-number order. -/
def closeContents (n : ℕ) : PDFVal :=
  .arr ((List.range n).map (fun j => PDFVal.ref ((j : ℤ) + 1)))

/-- The writer's `resources` dictionary as a value: `ExtGState` holds one
`{"ca": a}` dictionary per registered name, `Font` one reference per
registered name (pdf.go lines 30, 149-151, 177). -/
def resourcesVal (s : PW) : PDFVal :=
  .dict [("ExtGState", .dict (s.resExtGState.map
            (fun p => (p.1, PDFVal.dict [("ca", PDFVal.real p.2)])))),
         ("Font", .dict (s.resFont.map (fun p => (p.1, PDFVal.ref p.2))))]

/-- The Page dictionary written first by `Close` (pdf.go lines 195-201);
its `Parent` is the forward reference `len(objOffsets) + 2`, read before
the Page object itself is appended. -/
def closePageDict (s : PW) : PDFVal :=
  .dict [("Type", .name "Page"),
         ("Parent", .ref ((s.objOffsets.length : ℤ) + 2)),
         ("MediaBox", .arr [.real 0, .real 0, .real s.width, .real s.height]),
         ("Resources", resourcesVal s),
         ("Contents", closeContents s.objOffsets.length)]

/-- The Pages dictionary written second by `Close` (pdf.go lines 203-207). -/
def closePagesDict (refPage : ℤ) : PDFVal :=
  .dict [("Type", .name "Pages"), ("Kids", .arr [.ref refPage]),
         ("Count", .int 1)]

/-- The Catalog dictionary written third by `Close` (pdf.go lines 209-212). -/
def closeCatalogDict (refPages : ℤ) : PDFVal :=
  .dict [("Type", .name "Catalog"), ("Pages", .ref refPages)]

/-- The first finalizer write of `Close` (pdf.go lines 195-201): the Page
object. -/
def closeStep1 (C : Codecs) (s : PW) : PW × ℤ :=
  WriteObject C s (closePageDict s)

/-- The second finalizer write of `Close` (pdf.go lines 203-207): the Pages
object, whose `Kids` holds the Page reference just returned. -/
def closeStep2 (C : Codecs) (s : PW) : PW × ℤ :=
  WriteObject C (closeStep1 C s).1 (closePagesDict (closeStep1 C s).2)

/-- The three finalizer objects of `Close`, in order Page, Pages, Catalog
(pdf.go lines 195-212); the result pairs the state after the third write
with the Catalog's reference. -/
def closeObjs (C : Codecs) (s : PW) : PW × ℤ :=
  WriteObject C (closeStep2 C s).1 (closeCatalogDict (closeStep2 C s).2)

/-- The first cross-reference write of `Close` (pdf.go line 215): the `xref`
keyword, the subsection line `0 <count+1>` and the free-list entry for
object 0, in one `write` call. -/
def xrefHeader (count : ℕ) : Bytes :=
  lit ("xref\n0 " ++ toString (count + 1) ++ "\n0000000000 65535 f\n")

/-- `%010d`: the decimal numeral zero-padded on the left to 10 digits. -/
def pad10 (n : ℕ) : String :=
  String.mk (List.replicate (10 - (toString n).length) '0') ++ toString n

/-- One in-use cross-reference entry (pdf.go line 217): 10-digit offset,
5-digit generation `00000`, flag `n`. -/
def xrefEntry (off : ℕ) : Bytes := lit (pad10 off ++ " 00000 n\n")

/-- The trailer dictionary (pdf.go lines 220-223). -/
def trailerDict (root : ℤ) (size : ℕ) : PDFVal :=
  .dict [("Root", .ref root), ("Size", .int size)]

/-- The footer (pdf.go line 224): `fmt`'s `%%%%` formats as `%%`, and the
keyword is `starxref` exactly as the source spells it. -/
def footer (xrefOffset : ℕ) : Bytes :=
  lit ("\nstarxref\n" ++ toString xrefOffset ++ "\n%%EOF")

/-- The cross-reference section writes of `Close` (pdf.go lines 215-218),
taken from the state `s3` after the three finalizer objects: the header
write (with the free-list entry for object 0), then one entry write per
recorded offset, in object-number order. -/
def xrefWrites (s3 : PW) : PW :=
  s3.objOffsets.foldl (fun st off => writeBytes st (xrefEntry off))
    (writeBytes s3 (xrefHeader s3.objOffsets.length))

/-- The tail of `Close` after the three finalizer objects (pdf.go lines
214-225): the cross-reference offset is `s3.pos`; emit the cross-reference
section, the `trailer` keyword, the trailer dictionary and the footer. -/
def closeTail (C : Codecs) (s3 : PW) (refCatalog : ℤ) : PW :=
  writeBytes
    (writeBytes
      (writeBytes (xrefWrites s3) (lit "trailer\n"))
      (renderVal C (trailerDict refCatalog s3.objOffsets.length)))
    (footer s3.pos)

/-- `PDFWriter.Close` (pdf.go lines 189-226); returns the final state and
the sticky error, `none` when no sink write ever failed. -/
def Close (C : Codecs) (s : PW) : PW × Option String :=
  (closeTail C (closeObjs C s).1 (closeObjs C s).2,
   (closeTail C (closeObjs C s).1 (closeObjs C s).2).err)

/-- One public operation of the writer in its Open state. -/
inductive Op where
  | writeObject (v : PDFVal)
  | getOpacityGS (a : ℚ)
  | getFont (f : Font)

/-- Apply one operation to the state.  A `getFont` call that panics leaves
no successor state; it is mapped to the unchanged state here so that
invariants range over every state an aborted run ever inhabited. -/
def applyOp (C : Codecs) (s : PW) : Op → PW
  | .writeObject v => (WriteObject C s v).1
  | .getOpacityGS a => (GetOpacityGS s a).1
  | .getFont f =>
      match GetFont C s f with
      | .ok p => p.1
      | .error _ => s

/-- Apply a list of operations left to right. -/
def applyOps (C : Codecs) (s : PW) (ops : List Op) : PW :=
  ops.foldl (applyOp C) s

/-- The states reachable from a fresh writer by any sequence of public
operations, `Close` included. -/
inductive Reachable (C : Codecs) : PW → Prop where
  | init (sink : List SinkResp) (w h : ℚ) : Reachable C (NewPDFWriter sink w h)
  | step {s : PW} (op : Op) : Reachable C s → Reachable C (applyOp C s op)
  | close {s : PW} : Reachable C s → Reachable C (Close C s).1

/-! ## Association-list lemmas -/

theorem lookupA_append {α β : Type} [DecidableEq α] (l₁ l₂ : List (α × β)) (a : α) :
    lookupA (l₁ ++ l₂) a =
      match lookupA l₁ a with
      | some v => some v
      | none => lookupA l₂ a := by
  induction l₁ with
  | nil => rfl
  | cons p l ih =>
      obtain ⟨k, v⟩ := p
      by_cases h : k = a <;> simp [lookupA, h, ih]

theorem lookupA_append_of_some {α β : Type} [DecidableEq α] {l₁ : List (α × β)}
    {a : α} {b : β} (l₂ : List (α × β)) (h : lookupA l₁ a = some b) :
    lookupA (l₁ ++ l₂) a = some b := by
  rw [lookupA_append, h]

theorem lookupA_append_of_none {α β : Type} [DecidableEq α] {l₁ : List (α × β)}
    {a : α} (l₂ : List (α × β)) (h : lookupA l₁ a = none) :
    lookupA (l₁ ++ l₂) a = lookupA l₂ a := by
  rw [lookupA_append, h]

theorem lookupA_eq_none_iff {α β : Type} [DecidableEq α] {l : List (α × β)} {a : α} :
    lookupA l a = none ↔ a ∉ l.map Prod.fst := by
  induction l with
  | nil => simp [lookupA]
  | cons p l ih =>
      obtain ⟨k, v⟩ := p
      simp only [List.map_cons, List.mem_cons, lookupA]
      by_cases h : k = a
      · subst h; simp
      · simp only [if_neg h, ih]
        constructor
        · intro hn hor
          rcases hor with h1 | h2
          · exact h h1.symm
          · exact hn h2
        · intro hn h2
          exact hn (Or.inr h2)

theorem lookupA_setKey_self {α β : Type} [DecidableEq α] (l : List (α × β))
    (k : α) (v : β) : lookupA (setKey l k v) k = some v := by
  induction l with
  | nil => simp [setKey, lookupA]
  | cons p l ih =>
      obtain ⟨k', w⟩ := p
      by_cases h : k' = k <;> simp [setKey, lookupA, h, ih]

theorem lookupA_setKey_of_ne {α β : Type} [DecidableEq α] (l : List (α × β))
    {k k' : α} (v : β) (h : k ≠ k') :
    lookupA (setKey l k v) k' = lookupA l k' := by
  induction l with
  | nil => simp [setKey, lookupA, h]
  | cons p l ih =>
      obtain ⟨k'', w⟩ := p
      by_cases h2 : k'' = k
      · subst h2; simp [setKey, lookupA, h]
      · simp [setKey, lookupA, h2, ih]

/-! ## Basic facts about `writeBytes` -/

theorem writeBytes_of_errSome {s : PW} (b : Bytes) (h : s.err.isSome) :
    writeBytes s b = s := by
  unfold writeBytes
  simp [h]

theorem writeBytes_fields (s : PW) (b : Bytes) :
    (writeBytes s b).objOffsets = s.objOffsets ∧
    (writeBytes s b).width = s.width ∧
    (writeBytes s b).height = s.height ∧
    (writeBytes s b).resExtGState = s.resExtGState ∧
    (writeBytes s b).resFont = s.resFont ∧
    (writeBytes s b).graphicsStates = s.graphicsStates ∧
    (writeBytes s b).fonts = s.fonts ∧
    (writeBytes s b).writeCalls = s.writeCalls := by
  unfold writeBytes
  split
  · exact ⟨rfl, rfl, rfl, rfl, rfl, rfl, rfl, rfl⟩
  · split <;> exact ⟨rfl, rfl, rfl, rfl, rfl, rfl, rfl, rfl⟩

theorem writeBytes_objOffsets (s : PW) (b : Bytes) :
    (writeBytes s b).objOffsets = s.objOffsets := (writeBytes_fields s b).1

theorem writeBytes_writeCalls (s : PW) (b : Bytes) :
    (writeBytes s b).writeCalls = s.writeCalls := (writeBytes_fields s b).2.2.2.2.2.2.2

theorem writeBytes_graphicsStates (s : PW) (b : Bytes) :
    (writeBytes s b).graphicsStates = s.graphicsStates :=
  (writeBytes_fields s b).2.2.2.2.2.1

theorem writeBytes_fonts (s : PW) (b : Bytes) :
    (writeBytes s b).fonts = s.fonts := (writeBytes_fields s b).2.2.2.2.2.2.1

theorem writeBytes_resExtGState (s : PW) (b : Bytes) :
    (writeBytes s b).resExtGState = s.resExtGState :=
  (writeBytes_fields s b).2.2.2.1

theorem writeBytes_resFont (s : PW) (b : Bytes) :
    (writeBytes s b).resFont = s.resFont := (writeBytes_fields s b).2.2.2.2.1

/-- Case analysis of one sink write in an error-free state: either every
byte is accepted without error, or the sink's `fail n e` response accepts
the prefix of length `n` and latches `e`. -/
theorem writeBytes_cases (s : PW) (b : Bytes) (he : s.err = none) :
    ((writeBytes s b).out = s.out ++ b ∧
     (writeBytes s b).pos = s.pos + b.length ∧
     (writeBytes s b).err = none) ∨
    (∃ n e rest, s.sink = SinkResp.fail n e :: rest ∧
     (writeBytes s b).out = s.out ++ b.take n ∧
     (writeBytes s b).pos = s.pos + (b.take n).length ∧
     (writeBytes s b).err = some e) := by
  unfold writeBytes
  rw [he]
  match hs : s.sink with
  | [] => left; exact ⟨rfl, rfl, rfl⟩
  | .ok :: rest => left; exact ⟨rfl, rfl, rfl⟩
  | .fail n e :: rest => right; exact ⟨n, e, rest, rfl, rfl, rfl, rfl⟩

/-- The sticky error never clears. -/
theorem writeBytes_err_none (s : PW) (b : Bytes)
    (h : (writeBytes s b).err = none) : s.err = none := by
  cases he : s.err with
  | none => rfl
  | some e =>
      rw [writeBytes_of_errSome b (by simp [he])] at h
      rw [he] at h
      exact absurd h (by simp)

/-- A fully error-free write appends exactly its bytes and advances `pos`
by their count. -/
theorem writeBytes_success (s : PW) (b : Bytes) (he : s.err = none)
    (he2 : (writeBytes s b).err = none) :
    (writeBytes s b).out = s.out ++ b ∧
    (writeBytes s b).pos = s.pos + b.length := by
  rcases writeBytes_cases s b he with ⟨h1, h2, _⟩ | ⟨n, e, rest, _, _, _, h4⟩
  · exact ⟨h1, h2⟩
  · rw [h4] at he2; exact absurd he2 (by simp)

/-- Every write only appends to the bytes the sink has accepted. -/
theorem writeBytes_out_extends (s : PW) (b : Bytes) :
    ∃ t, (writeBytes s b).out = s.out ++ t := by
  cases he : s.err with
  | some e => exact ⟨[], by rw [writeBytes_of_errSome b (by simp [he])]; simp⟩
  | none =>
      rcases writeBytes_cases s b he with ⟨h1, _, _⟩ | ⟨n, e, rest, _, h2, _, _⟩
      · exact ⟨b, h1⟩
      · exact ⟨b.take n, h2⟩

/-- `pos` always equals the number of bytes the sink has accepted: a full
write adds `b.length` to both, a partial write adds the accepted prefix's
length to both, a post-error write changes neither. -/
theorem writeBytes_sync (s : PW) (b : Bytes) (h : s.pos = s.out.length) :
    (writeBytes s b).pos = (writeBytes s b).out.length := by
  cases he : s.err with
  | some e => rw [writeBytes_of_errSome b (by simp [he])]; exact h
  | none =>
      rcases writeBytes_cases s b he with ⟨h1, h2, _⟩ | ⟨n, e, rest, _, h2, h3, _⟩
      · rw [h1, h2, h, List.length_append]
      · rw [h2, h3, h, List.length_append]

/-! ## Byte occurrences in the output stream -/

/-- The bytes `H` occur in `out` starting at byte position `p`. -/
def bytesAt (out : Bytes) (p : ℕ) (H : Bytes) : Prop :=
  p + H.length ≤ out.length ∧ (out.drop p).take H.length = H

theorem bytesAt_append {out : Bytes} {p : ℕ} {H : Bytes} (t : Bytes)
    (h : bytesAt out p H) : bytesAt (out ++ t) p H := by
  obtain ⟨h1, h2⟩ := h
  constructor
  · rw [List.length_append]; omega
  · have hp : p ≤ out.length := by omega
    rw [List.drop_append_of_le_length hp]
    rw [List.take_append_of_le_length (by rw [List.length_drop]; omega)]
    exact h2

theorem bytesAt_here (out H t : Bytes) : bytesAt (out ++ (H ++ t)) out.length H := by
  constructor
  · simp [List.length_append]
  · rw [List.drop_append_of_le_length (le_refl out.length)]
    simp [List.take_append_of_le_length (le_refl H.length)]

/-! ## Facts about `WriteObject` -/

theorem WriteObject_snd (C : Codecs) (s : PW) (v : PDFVal) :
    (WriteObject C s v).2 = (s.objOffsets.length : ℤ) + 1 := rfl

theorem WriteObject_objOffsets (C : Codecs) (s : PW) (v : PDFVal) :
    (WriteObject C s v).1.objOffsets = s.objOffsets ++ [s.pos] := by
  unfold WriteObject
  simp only [writeBytes_objOffsets]

theorem WriteObject_writeCalls (C : Codecs) (s : PW) (v : PDFVal) :
    (WriteObject C s v).1.writeCalls = s.writeCalls + 1 := by
  unfold WriteObject
  simp only [writeBytes_writeCalls]

theorem WriteObject_graphicsStates (C : Codecs) (s : PW) (v : PDFVal) :
    (WriteObject C s v).1.graphicsStates = s.graphicsStates := by
  unfold WriteObject
  simp only [writeBytes_graphicsStates]

theorem WriteObject_resExtGState (C : Codecs) (s : PW) (v : PDFVal) :
    (WriteObject C s v).1.resExtGState = s.resExtGState := by
  unfold WriteObject
  simp only [writeBytes_resExtGState]

theorem WriteObject_fonts (C : Codecs) (s : PW) (v : PDFVal) :
    (WriteObject C s v).1.fonts = s.fonts := by
  unfold WriteObject
  simp only [writeBytes_fonts]

/-- Once the sticky error is set, `WriteObject` still appends an offset but
leaves the sink, the accepted output, the position and the error alone. -/
theorem WriteObject_of_errSome (C : Codecs) (s : PW) (v : PDFVal) {e : String}
    (h : s.err = some e) :
    (WriteObject C s v).1.out = s.out ∧ (WriteObject C s v).1.pos = s.pos ∧
    (WriteObject C s v).1.err = some e ∧ (WriteObject C s v).1.sink = s.sink := by
  unfold WriteObject
  set t : PW := { s with objOffsets := s.objOffsets ++ [s.pos],
                         writeCalls := s.writeCalls + 1 } with ht
  have hte : t.err = some e := h
  have w1 : writeBytes t (objHeader (s.objOffsets.length + 1)) = t :=
    writeBytes_of_errSome _ (by simp [h])
  rw [w1]
  have w2 : writeBytes t (renderVal C v) = t := writeBytes_of_errSome _ (by simp [h])
  rw [w2]
  have w3 : writeBytes t (lit "\nendobj\n") = t := writeBytes_of_errSome _ (by simp [h])
  rw [w3]
  exact ⟨rfl, rfl, hte, rfl⟩

theorem WriteObject_err_none (C : Codecs) (s : PW) (v : PDFVal)
    (h : (WriteObject C s v).1.err = none) : s.err = none := by
  by_contra hc
  cases he : s.err with
  | none => exact hc he
  | some e =>
      rcases WriteObject_of_errSome C s v he with ⟨-, -, h3, -⟩
      rw [h3] at h
      exact absurd h (by simp)

/-- An error-free `WriteObject` appends the header, the rendered value and
the `endobj` marker, in that order, starting at position `s.pos`. -/
theorem WriteObject_success (C : Codecs) (s : PW) (v : PDFVal)
    (he : s.err = none) (he2 : (WriteObject C s v).1.err = none) :
    (WriteObject C s v).1.out =
      s.out ++ (objHeader (s.objOffsets.length + 1) ++
        (renderVal C v ++ lit "\nendobj\n")) ∧
    (WriteObject C s v).1.pos = s.pos + (objHeader (s.objOffsets.length + 1) ++
        (renderVal C v ++ lit "\nendobj\n")).length := by
  unfold WriteObject at he2 ⊢
  set s1 : PW := { s with objOffsets := s.objOffsets ++ [s.pos],
                          writeCalls := s.writeCalls + 1 } with hs1
  have h1e : s1.err = none := he
  have h3e : (writeBytes (writeBytes s1 (objHeader (s.objOffsets.length + 1)))
      (renderVal C v)).err = none := writeBytes_err_none _ _ he2
  have h2e : (writeBytes s1 (objHeader (s.objOffsets.length + 1))).err = none :=
    writeBytes_err_none _ _ h3e
  obtain ⟨ho2, hp2⟩ := writeBytes_success s1 _ h1e h2e
  obtain ⟨ho3, hp3⟩ := writeBytes_success _ (renderVal C v) h2e h3e
  obtain ⟨ho4, hp4⟩ := writeBytes_success _ (lit "\nendobj\n") h3e he2
  constructor
  · rw [ho4, ho3, ho2]
    show s.out ++ _ ++ _ ++ _ = _
    simp [List.append_assoc]
  · rw [hp4, hp3, hp2]
    show s.pos + _ + _ + _ = _
    simp [List.length_append]
    omega

/-! ## The run invariant -/

/-- Every recorded offset marks the position where that object's header
line starts in the accepted output (`getD i 0`: entry `i` of the offset
table, for each `i` below the table's length). -/
def headerInv (s : PW) : Prop :=
  ∀ i, i < s.objOffsets.length →
    bytesAt s.out (s.objOffsets.getD i 0) (objHeader (i + 1))

/-- The invariant every reachable writer state satisfies: `pos` equals the
accepted byte count; in an error-free state each offset marks its object's
header; the ghost `writeCalls` counts the offsets; and the `ExtGState`
resource entries mirror the `graphicsStates` cache, whose opacity keys are
pairwise distinct. -/
def Inv (s : PW) : Prop :=
  s.pos = s.out.length ∧
  (s.err = none → headerInv s) ∧
  s.writeCalls = s.objOffsets.length ∧
  s.resExtGState = s.graphicsStates.map (fun p => (p.2, p.1)) ∧
  (s.graphicsStates.map Prod.fst).Nodup

theorem inv_writeBytes {s : PW} (b : Bytes) (h : Inv s) : Inv (writeBytes s b) := by
  obtain ⟨h1, h2, h3, h4, h5⟩ := h
  refine ⟨writeBytes_sync s b h1, ?_, ?_, ?_, ?_⟩
  · intro he2
    have he : s.err = none := writeBytes_err_none s b he2
    intro i hi
    rw [writeBytes_objOffsets] at hi ⊢
    rcases writeBytes_cases s b he with ⟨ho, -, -⟩ | ⟨n, e, rest, -, -, -, h4'⟩
    · rw [ho]
      exact bytesAt_append b (h2 he i hi)
    · rw [h4'] at he2
      exact absurd he2 (by simp)
  · rw [writeBytes_writeCalls, writeBytes_objOffsets]; exact h3
  · rw [writeBytes_resExtGState, writeBytes_graphicsStates]; exact h4
  · rw [writeBytes_graphicsStates]; exact h5

theorem WriteObject_sync (C : Codecs) (s : PW) (v : PDFVal)
    (h : s.pos = s.out.length) :
    (WriteObject C s v).1.pos = (WriteObject C s v).1.out.length := by
  unfold WriteObject
  exact writeBytes_sync _ _ (writeBytes_sync _ _ (writeBytes_sync _ _ h))

theorem inv_WriteObject (C : Codecs) {s : PW} (v : PDFVal) (h : Inv s) :
    Inv (WriteObject C s v).1 := by
  obtain ⟨h1, h2, h3, h4, h5⟩ := h
  refine ⟨WriteObject_sync C s v h1, ?_, ?_, ?_, ?_⟩
  · intro he2 i hi
    have he : s.err = none := WriteObject_err_none C s v he2
    obtain ⟨ho, -⟩ := WriteObject_success C s v he he2
    rw [WriteObject_objOffsets] at hi ⊢
    rw [List.length_append, List.length_singleton] at hi
    by_cases hc : i < s.objOffsets.length
    · rw [List.getD_append _ _ _ _ hc, ho]
      exact bytesAt_append _ (h2 he i hc)
    · have hieq : i = s.objOffsets.length := by omega
      subst hieq
      rw [List.getD_append_right _ _ _ _ (le_refl _), Nat.sub_self]
      simp only [List.getD_cons_zero]
      rw [ho, h1]
      exact bytesAt_here s.out _ _
  · rw [WriteObject_writeCalls, WriteObject_objOffsets, List.length_append,
        List.length_singleton, h3]
  · rw [WriteObject_resExtGState, WriteObject_graphicsStates]; exact h4
  · rw [WriteObject_graphicsStates]; exact h5

theorem inv_GetOpacityGS {s : PW} (a : ℚ) (h : Inv s) : Inv (GetOpacityGS s a).1 := by
  obtain ⟨h1, h2, h3, h4, h5⟩ := h
  cases hlk : lookupA s.graphicsStates a with
  | some name =>
      simp only [GetOpacityGS, hlk]
      exact ⟨h1, h2, h3, h4, h5⟩
  | none =>
      simp only [GetOpacityGS, hlk]
      refine ⟨h1, h2, h3, ?_, ?_⟩
      · rw [h4]
        simp [List.map_append]
      · rw [List.map_append, List.nodup_append]
        refine ⟨h5, by simp, ?_⟩
        intro x hx hx2
        simp only [List.map_cons, List.map_nil, List.mem_singleton] at hx2
        subst hx2
        exact (lookupA_eq_none_iff.mp hlk) hx

theorem inv_registerFont (C : Codecs) {s : PW} (f : Font) (h : Inv s) :
    Inv (registerFont C s f).1 := by
  have h1 := inv_WriteObject C (fontStream (f.fname.replace " " "_")) h
  obtain ⟨a1, a2, a3, a4, a5⟩ := h1
  exact ⟨a1, a2, a3, a4, a5⟩

theorem inv_GetFont_ok (C : Codecs) {s : PW} {f : Font} {p : PW × String}
    (hg : GetFont C s f = .ok p) (h : Inv s) : Inv p.1 := by
  unfold GetFont at hg
  cases hlk : lookupA s.fonts f.addr with
  | some name =>
      rw [hlk] at hg
      simp only [Except.ok.injEq] at hg
      rw [← hg]
      exact h
  | none =>
      rw [hlk] at hg
      by_cases hm : (Font.Raw f).1 ≠ "font/ttf"
      · rw [if_pos hm] at hg
        exact absurd hg (by simp)
      · rw [if_neg hm] at hg
        simp only [Except.ok.injEq] at hg
        rw [← hg]
        exact inv_registerFont C f h

theorem inv_applyOp (C : Codecs) {s : PW} (op : Op) (h : Inv s) :
    Inv (applyOp C s op) := by
  cases op with
  | writeObject v => exact inv_WriteObject C v h
  | getOpacityGS a => exact inv_GetOpacityGS a h
  | getFont f =>
      show Inv (match GetFont C s f with | .ok p => p.1 | .error _ => s)
      cases hg : GetFont C s f with
      | error e => exact h
      | ok p => exact inv_GetFont_ok C hg h

theorem inv_foldl_write (f : ℕ → Bytes) (offs : List ℕ) :
    ∀ {t : PW}, Inv t →
      Inv (offs.foldl (fun st off => writeBytes st (f off)) t) := by
  induction offs with
  | nil => intro t h; exact h
  | cons o os ih =>
      intro t h
      rw [List.foldl_cons]
      exact ih (inv_writeBytes _ h)

theorem inv_xrefWrites {s3 : PW} (h : Inv s3) : Inv (xrefWrites s3) := by
  unfold xrefWrites
  exact inv_foldl_write xrefEntry _ (inv_writeBytes _ h)

theorem inv_closeTail (C : Codecs) {s3 : PW} (rc : ℤ) (h : Inv s3) :
    Inv (closeTail C s3 rc) := by
  unfold closeTail
  exact inv_writeBytes _ (inv_writeBytes _ (inv_writeBytes _ (inv_xrefWrites h)))

theorem inv_Close (C : Codecs) {s : PW} (h : Inv s) : Inv (Close C s).1 := by
  unfold Close closeObjs closeStep2 closeStep1
  exact inv_closeTail C _ (inv_WriteObject C _ (inv_WriteObject C _
    (inv_WriteObject C _ h)))

theorem inv_NewPDFWriter (sink : List SinkResp) (w h : ℚ) :
    Inv (NewPDFWriter sink w h) := by
  unfold NewPDFWriter
  refine inv_writeBytes _ ⟨rfl, ?_, rfl, rfl, List.nodup_nil⟩
  intro _ i hi
  exact absurd hi (by simp)

/-- Every reachable writer state satisfies the run invariant. -/
theorem reachable_inv {C : Codecs} {s : PW} (h : Reachable C s) : Inv s := by
  induction h with
  | init sink w h => exact inv_NewPDFWriter sink w h
  | step op _ ih => exact inv_applyOp _ op ih
  | close _ ih => exact inv_Close _ ih

/-- Concrete codecs used to instantiate witnesses: exact rational
formatting and identity encoders.  Any `Codecs` value works in the
theorems; this one makes the examples computable. -/
def sampleCodecs : Codecs := ⟨fun q => toString q, id, id⟩

/-! ## C1: recorded offsets and header positions -/

/-- C1: for every reachable state of the writer whose sticky error is
unset, the cumulative position equals the byte length of the accepted
output, and entry `i` of the offset table is exactly the byte position at
which object `i+1`'s header line `"<i+1> 0 obj\n"` begins in the output. -/
theorem C1_offsets_mark_headers (C : Codecs) (s : PW) (h : Reachable C s)
    (he : s.err = none) :
    s.pos = s.out.length ∧
    ∀ i, i < s.objOffsets.length →
      s.objOffsets.getD i 0 + (objHeader (i + 1)).length ≤ s.out.length ∧
      (s.out.drop (s.objOffsets.getD i 0)).take (objHeader (i + 1)).length =
        objHeader (i + 1) := by
  obtain ⟨h1, h2, -, -, -⟩ := reachable_inv h
  exact ⟨h1, fun i hi => h2 he i hi⟩

/-- Witness for C1: a fresh writer of size 100×200 after one
`writeObject` of the integer 7; the hypotheses hold by construction and by
`rfl`. -/
theorem C1_offsets_mark_headers_witness :
    (applyOp sampleCodecs (NewPDFWriter [] 100 200)
        (.writeObject (.int 7))).err = none ∧
    ((applyOp sampleCodecs (NewPDFWriter [] 100 200)
        (.writeObject (.int 7))).pos =
      (applyOp sampleCodecs (NewPDFWriter [] 100 200)
        (.writeObject (.int 7))).out.length ∧
     ∀ i, i < (applyOp sampleCodecs (NewPDFWriter [] 100 200)
        (.writeObject (.int 7))).objOffsets.length →
      (applyOp sampleCodecs (NewPDFWriter [] 100 200)
        (.writeObject (.int 7))).objOffsets.getD i 0 +
          (objHeader (i + 1)).length ≤
        (applyOp sampleCodecs (NewPDFWriter [] 100 200)
          (.writeObject (.int 7))).out.length ∧
      ((applyOp sampleCodecs (NewPDFWriter [] 100 200)
          (.writeObject (.int 7))).out.drop
            ((applyOp sampleCodecs (NewPDFWriter [] 100 200)
              (.writeObject (.int 7))).objOffsets.getD i 0)).take
          (objHeader (i + 1)).length = objHeader (i + 1)) :=
  ⟨rfl, C1_offsets_mark_headers sampleCodecs _
    (Reachable.step (Op.writeObject (.int 7)) (Reachable.init [] 100 200)) rfl⟩

/-! ## C2: the sticky error -/

theorem GetOpacityGS_io (s : PW) (a : ℚ) :
    (GetOpacityGS s a).1.out = s.out ∧ (GetOpacityGS s a).1.pos = s.pos ∧
    (GetOpacityGS s a).1.err = s.err ∧ (GetOpacityGS s a).1.sink = s.sink ∧
    (GetOpacityGS s a).1.objOffsets = s.objOffsets ∧
    (GetOpacityGS s a).1.writeCalls = s.writeCalls := by
  cases hlk : lookupA s.graphicsStates a <;>
    simp [GetOpacityGS, hlk]

theorem GetFont_ok_of_errSome (C : Codecs) {s : PW} {f : Font}
    {p : PW × String} {e : String} (hg : GetFont C s f = .ok p)
    (h : s.err = some e) :
    p.1.out = s.out ∧ p.1.pos = s.pos ∧ p.1.err = some e ∧
    p.1.sink = s.sink := by
  unfold GetFont at hg
  cases hlk : lookupA s.fonts f.addr with
  | some name =>
      rw [hlk] at hg
      simp only [Except.ok.injEq] at hg
      rw [← hg]
      exact ⟨rfl, rfl, h, rfl⟩
  | none =>
      rw [hlk] at hg
      by_cases hm : (Font.Raw f).1 ≠ "font/ttf"
      · rw [if_pos hm] at hg
        exact absurd hg (by simp)
      · rw [if_neg hm] at hg
        simp only [Except.ok.injEq] at hg
        rw [← hg]
        exact WriteObject_of_errSome C s (fontStream (f.fname.replace " " "_")) h

theorem applyOp_of_errSome (C : Codecs) (s : PW) (op : Op) {e : String}
    (h : s.err = some e) :
    (applyOp C s op).out = s.out ∧ (applyOp C s op).pos = s.pos ∧
    (applyOp C s op).err = some e ∧ (applyOp C s op).sink = s.sink := by
  cases op with
  | writeObject v => exact WriteObject_of_errSome C s v h
  | getOpacityGS a =>
      obtain ⟨g1, g2, g3, g4, -, -⟩ := GetOpacityGS_io s a
      exact ⟨g1, g2, g3.trans h, g4⟩
  | getFont f =>
      show (match GetFont C s f with | .ok p => p.1 | .error _ => s).out = s.out ∧
        (match GetFont C s f with | .ok p => p.1 | .error _ => s).pos = s.pos ∧
        (match GetFont C s f with | .ok p => p.1 | .error _ => s).err = some e ∧
        (match GetFont C s f with | .ok p => p.1 | .error _ => s).sink = s.sink
      cases hg : GetFont C s f with
      | error msg => exact ⟨rfl, rfl, h, rfl⟩
      | ok p => exact GetFont_ok_of_errSome C hg h

theorem foldl_writeBytes_of_errSome (f : ℕ → Bytes) (offs : List ℕ) {t : PW}
    {e : String} (h : t.err = some e) :
    offs.foldl (fun st off => writeBytes st (f off)) t = t := by
  induction offs with
  | nil => rfl
  | cons o os ih =>
      rw [List.foldl_cons, writeBytes_of_errSome _ (by simp [h])]
      exact ih

theorem closeTail_of_errSome (C : Codecs) {s3 : PW} (rc : ℤ) {e : String}
    (h : s3.err = some e) : closeTail C s3 rc = s3 := by
  have w0 : writeBytes s3 (xrefHeader s3.objOffsets.length) = s3 :=
    writeBytes_of_errSome _ (by simp [h])
  have w1 : xrefWrites s3 = s3 := by
    unfold xrefWrites
    rw [w0]
    exact foldl_writeBytes_of_errSome xrefEntry _ h
  have w2 : writeBytes s3 (lit "trailer\n") = s3 :=
    writeBytes_of_errSome _ (by simp [h])
  have w3 : writeBytes s3 (renderVal C (trailerDict rc s3.objOffsets.length)) = s3 :=
    writeBytes_of_errSome _ (by simp [h])
  have w4 : writeBytes s3 (footer s3.pos) = s3 :=
    writeBytes_of_errSome _ (by simp [h])
  unfold closeTail
  rw [w1, w2, w3, w4]

theorem Close_of_errSome (C : Codecs) (s : PW) {e : String}
    (h : s.err = some e) :
    (Close C s).1.out = s.out ∧ (Close C s).1.pos = s.pos ∧
    (Close C s).2 = some e ∧ (Close C s).1.sink = s.sink := by
  have o1 := WriteObject_of_errSome C s (closePageDict s) h
  have e1 : (closeStep1 C s).1.err = some e := o1.2.2.1
  have o2 := WriteObject_of_errSome C (closeStep1 C s).1
    (closePagesDict (closeStep1 C s).2) e1
  have e2 : (closeStep2 C s).1.err = some e := o2.2.2.1
  have o3 := WriteObject_of_errSome C (closeStep2 C s).1
    (closeCatalogDict (closeStep2 C s).2) e2
  have e3 : (closeObjs C s).1.err = some e := o3.2.2.1
  have hct : closeTail C (closeObjs C s).1 (closeObjs C s).2 =
      (closeObjs C s).1 := closeTail_of_errSome C _ e3
  unfold Close
  rw [hct]
  have ho : (closeObjs C s).1.out = s.out := (o3.1.trans o2.1).trans o1.1
  have hp : (closeObjs C s).1.pos = s.pos :=
    (o3.2.1.trans o2.2.1).trans o1.2.1
  have hk : (closeObjs C s).1.sink = s.sink :=
    (o3.2.2.2.trans o2.2.2.2).trans o1.2.2.2
  exact ⟨ho, hp, e3, hk⟩

theorem writeBytes_partial (s : PW) (b : Bytes) (n : ℕ) (e : String)
    (rest : List SinkResp) (he : s.err = none)
    (hs : s.sink = SinkResp.fail n e :: rest) :
    (writeBytes s b).pos = s.pos + min n b.length ∧
    (writeBytes s b).out = s.out ++ b.take n ∧
    (writeBytes s b).err = some e := by
  unfold writeBytes
  rw [he, hs]
  exact ⟨by simp [List.length_take], rfl, rfl⟩

/-- C2: the sticky error.  Component one: once `err` holds the first
error `e`, every raw write is the literal identity, every public operation
and `close()` leave the sink, the accepted output, the position and the
error untouched, and `close()` returns `e`.  Component two: a write against
a failing sink still advances `pos` by the number of bytes the sink
accepted (`min n b.length` for a response accepting `n`) while latching the
error.  Component three: `close()` returns exactly the final sticky error,
which is `none` only if no write ever failed. -/
theorem C2_sticky_error (C : Codecs) (s : PW) :
    (∀ e, s.err = some e →
      (∀ b, writeBytes s b = s) ∧
      (∀ op, (applyOp C s op).out = s.out ∧ (applyOp C s op).pos = s.pos ∧
        (applyOp C s op).err = some e ∧ (applyOp C s op).sink = s.sink) ∧
      ((Close C s).1.out = s.out ∧ (Close C s).1.pos = s.pos ∧
        (Close C s).2 = some e)) ∧
    (∀ b n e rest, s.err = none → s.sink = SinkResp.fail n e :: rest →
      (writeBytes s b).pos = s.pos + min n b.length ∧
      (writeBytes s b).out = s.out ++ b.take n ∧
      (writeBytes s b).err = some e) ∧
    (Close C s).2 = (Close C s).1.err := by
  refine ⟨?_, ?_, rfl⟩
  · intro e he
    refine ⟨fun b => writeBytes_of_errSome b (by simp [he]), ?_, ?_⟩
    · intro op
      exact applyOp_of_errSome C s op he
    · obtain ⟨c1, c2, c3, -⟩ := Close_of_errSome C s he
      exact ⟨c1, c2, c3⟩
  · intro b n e rest he hs
    exact writeBytes_partial s b n e rest he hs

/-- Witness for C2: a sink that accepts 3 bytes of the 9-byte header and
then fails with "boom"; the state after `NewPDFWriter` has the sticky
error set, and all three components of the theorem are discharged on it. -/
theorem C2_sticky_error_witness :
    ((NewPDFWriter [SinkResp.fail 3 "boom"] 100 200).err = some "boom" ∧
     (∀ b, writeBytes (NewPDFWriter [SinkResp.fail 3 "boom"] 100 200) b =
        NewPDFWriter [SinkResp.fail 3 "boom"] 100 200) ∧
     (Close sampleCodecs (NewPDFWriter [SinkResp.fail 3 "boom"] 100 200)).2 =
        some "boom") ∧
    ((NewPDFWriter [SinkResp.ok, SinkResp.fail 1 "x"] 100 200).err = none ∧
     (writeBytes (NewPDFWriter [SinkResp.ok, SinkResp.fail 1 "x"] 100 200)
        (lit "ab")).pos =
       (NewPDFWriter [SinkResp.ok, SinkResp.fail 1 "x"] 100 200).pos +
         min 1 (lit "ab").length ∧
     (writeBytes (NewPDFWriter [SinkResp.ok, SinkResp.fail 1 "x"] 100 200)
        (lit "ab")).err = some "x") := by
  have h1 := (C2_sticky_error sampleCodecs
    (NewPDFWriter [SinkResp.fail 3 "boom"] 100 200)).1 "boom" rfl
  have h2 := (C2_sticky_error sampleCodecs
    (NewPDFWriter [SinkResp.ok, SinkResp.fail 1 "x"] 100 200)).2.1
    (lit "ab") 1 "x" [] rfl rfl
  exact ⟨⟨rfl, h1.1, h1.2.2.2.2⟩, rfl, h2.1, h2.2.2⟩

/-! ## C4: the Page → Pages → Catalog chain of `Close` -/

/-- Key lookup inside a dictionary value. -/
def pdfDictLookup : PDFVal → String → Option PDFVal
  | .dict d, k => lookupA d k
  | _, _ => none

theorem closeStep1_objOffsets_length (C : Codecs) (s : PW) :
    (closeStep1 C s).1.objOffsets.length = s.objOffsets.length + 1 := by
  unfold closeStep1
  rw [WriteObject_objOffsets]
  simp

theorem closeStep2_objOffsets_length (C : Codecs) (s : PW) :
    (closeStep2 C s).1.objOffsets.length = s.objOffsets.length + 2 := by
  unfold closeStep2
  rw [WriteObject_objOffsets]
  simp [closeStep1_objOffsets_length]

theorem closeObjs_objOffsets_length (C : Codecs) (s : PW) :
    (closeObjs C s).1.objOffsets.length = s.objOffsets.length + 3 := by
  unfold closeObjs
  rw [WriteObject_objOffsets]
  simp [closeStep2_objOffsets_length]

theorem closeStep2_snd (C : Codecs) (s : PW) :
    (closeStep2 C s).2 = (s.objOffsets.length : ℤ) + 2 := by
  unfold closeStep2
  rw [WriteObject_snd, closeStep1_objOffsets_length]
  push_cast
  ring

theorem closeObjs_snd (C : Codecs) (s : PW) :
    (closeObjs C s).2 = (s.objOffsets.length : ℤ) + 3 := by
  unfold closeObjs
  rw [WriteObject_snd, closeStep2_objOffsets_length]
  push_cast
  ring

/-- C4: `Close` writes the Page object, then the Pages object, then the
Catalog object; starting from `n` previously recorded objects they receive
object numbers `n+1`, `n+2`, `n+3`; the Page's `Parent` entry is the
forward reference `n+2`, which is exactly the number the Pages object
receives; the Pages object's `Kids` holds the Page's reference and the
Catalog's `Pages` entry holds the Pages reference; and the trailer
dictionary's `Size` is the total object count `n+3` — in particular `3`
when no object was written before `close()`. -/
theorem C4_close_chain (C : Codecs) (s : PW) :
    (closeStep1 C s).2 = (s.objOffsets.length : ℤ) + 1 ∧
    (closeStep2 C s).2 = (s.objOffsets.length : ℤ) + 2 ∧
    (closeObjs C s).2 = (s.objOffsets.length : ℤ) + 3 ∧
    pdfDictLookup (closePageDict s) "Parent" =
      some (.ref ((s.objOffsets.length : ℤ) + 2)) ∧
    pdfDictLookup (closePageDict s) "Parent" =
      some (.ref (closeStep2 C s).2) ∧
    pdfDictLookup (closePagesDict (closeStep1 C s).2) "Kids" =
      some (.arr [.ref (closeStep1 C s).2]) ∧
    pdfDictLookup (closeCatalogDict (closeStep2 C s).2) "Pages" =
      some (.ref (closeStep2 C s).2) ∧
    (closeObjs C s).1.objOffsets.length = s.objOffsets.length + 3 ∧
    pdfDictLookup
        (trailerDict (closeObjs C s).2 (closeObjs C s).1.objOffsets.length)
        "Size" = some (.int (s.objOffsets.length + 3)) ∧
    (s.objOffsets.length = 0 →
      pdfDictLookup
          (trailerDict (closeObjs C s).2 (closeObjs C s).1.objOffsets.length)
          "Size" = some (.int 3)) ∧
    Close C s = (closeTail C (closeObjs C s).1 (closeObjs C s).2,
      (closeTail C (closeObjs C s).1 (closeObjs C s).2).err) := by
  have hsz : pdfDictLookup
      (trailerDict (closeObjs C s).2 (closeObjs C s).1.objOffsets.length)
      "Size" = some (.int ((closeObjs C s).1.objOffsets.length)) := rfl
  refine ⟨rfl, closeStep2_snd C s, closeObjs_snd C s, rfl, ?_, rfl, rfl,
    closeObjs_objOffsets_length C s, ?_, ?_, rfl⟩
  · rw [closeStep2_snd C s]
    rfl
  · rw [hsz, closeObjs_objOffsets_length C s]
    push_cast
    ring_nf
  · intro h0
    rw [hsz, closeObjs_objOffsets_length C s, h0]
    rfl

/-- Witness for C4: with zero objects written before `close()`, the Page,
Pages and Catalog objects get numbers 1, 2 and 3, the Page's `Parent` is
reference 2, and the trailer's `Size` is 3. -/
theorem C4_close_chain_witness :
    (closeStep1 sampleCodecs (NewPDFWriter [] 100 200)).2 = 1 ∧
    (closeStep2 sampleCodecs (NewPDFWriter [] 100 200)).2 = 2 ∧
    (closeObjs sampleCodecs (NewPDFWriter [] 100 200)).2 = 3 ∧
    pdfDictLookup (closePageDict (NewPDFWriter [] 100 200)) "Parent" =
      some (.ref 2) ∧
    pdfDictLookup
        (trailerDict (closeObjs sampleCodecs (NewPDFWriter [] 100 200)).2
          (closeObjs sampleCodecs
            (NewPDFWriter [] 100 200)).1.objOffsets.length)
        "Size" = some (.int 3) := by
  have h := C4_close_chain sampleCodecs (NewPDFWriter [] 100 200)
  exact ⟨h.1, h.2.1, h.2.2.1, h.2.2.2.1, h.2.2.2.2.2.2.2.2.2.1 rfl⟩

/-! ## C10: values outside the supported tagged union -/

theorem writeBytes_nil_sink (s : PW) (b : Bytes) (he : s.err = none)
    (hs : s.sink = []) :
    writeBytes s b = { s with out := s.out ++ b, pos := s.pos + b.length } := by
  unfold writeBytes
  rw [he, hs]
  rfl

/-- C10: a dynamic value outside the type switch of `writeVal` (a `bool`,
an `int64`, ...) renders as zero bytes, and `WriteObject` on such a value
still records the offset, emits the header and `endobj` markers around the
empty body, returns the next reference and leaves the error unset (stated
against a sink that accepts everything). -/
theorem C10_unsupported_value (C : Codecs) (s : PW) (he : s.err = none)
    (hs : s.sink = []) :
    renderVal C .unsupported = [] ∧
    (WriteObject C s .unsupported).2 = (s.objOffsets.length : ℤ) + 1 ∧
    (WriteObject C s .unsupported).1.objOffsets = s.objOffsets ++ [s.pos] ∧
    (WriteObject C s .unsupported).1.out =
      s.out ++ objHeader (s.objOffsets.length + 1) ++ lit "\nendobj\n" ∧
    (WriteObject C s .unsupported).1.err = none := by
  have h1 : ∀ (t : PW) (b : Bytes), t.err = none → t.sink = [] →
      (writeBytes t b).err = none ∧ (writeBytes t b).sink = [] := by
    intro t b he2 hs2
    rw [writeBytes_nil_sink t b he2 hs2]
    exact ⟨he2, hs2⟩
  have e0 : ({ s with objOffsets := s.objOffsets ++ [s.pos],
                      writeCalls := s.writeCalls + 1 } : PW).err = none := he
  have s0 : ({ s with objOffsets := s.objOffsets ++ [s.pos],
                      writeCalls := s.writeCalls + 1 } : PW).sink = [] := hs
  obtain ⟨e1, s1⟩ := h1 _ (objHeader (s.objOffsets.length + 1)) e0 s0
  obtain ⟨e2, s2⟩ := h1 _ (renderVal C .unsupported) e1 s1
  obtain ⟨e3, s3⟩ := h1 _ (lit "\nendobj\n") e2 s2
  have herr : (WriteObject C s .unsupported).1.err = none := e3
  obtain ⟨ho, -⟩ := WriteObject_success C s .unsupported he herr
  refine ⟨rfl, rfl, WriteObject_objOffsets C s .unsupported, ?_, herr⟩
  rw [ho]
  have hru : renderVal C .unsupported = ([] : Bytes) := rfl
  rw [hru]
  simp [List.append_assoc]

/-- Witness for C10: a `bool`-like value written to a fresh writer. -/
theorem C10_unsupported_value_witness :
    renderVal sampleCodecs .unsupported = [] ∧
    (WriteObject sampleCodecs (NewPDFWriter [] 100 200) .unsupported).2 = 1 ∧
    (WriteObject sampleCodecs (NewPDFWriter [] 100 200)
        .unsupported).1.objOffsets = [] ++ [(NewPDFWriter [] 100 200).pos] ∧
    (WriteObject sampleCodecs (NewPDFWriter [] 100 200) .unsupported).1.out =
      (NewPDFWriter [] 100 200).out ++ objHeader 1 ++ lit "\nendobj\n" ∧
    (WriteObject sampleCodecs (NewPDFWriter [] 100 200)
        .unsupported).1.err = none :=
  C10_unsupported_value sampleCodecs (NewPDFWriter [] 100 200) rfl rfl

/-! ## C7: the opacity resource cache -/

theorem registerFont_graphicsStates (C : Codecs) (s : PW) (f : Font) :
    (registerFont C s f).1.graphicsStates = s.graphicsStates := by
  unfold registerFont
  exact WriteObject_graphicsStates C s _

theorem GetFont_ok_graphicsStates (C : Codecs) {s : PW} {f : Font}
    {p : PW × String} (hg : GetFont C s f = .ok p) :
    p.1.graphicsStates = s.graphicsStates := by
  unfold GetFont at hg
  cases hlk : lookupA s.fonts f.addr with
  | some name =>
      rw [hlk] at hg
      simp only [Except.ok.injEq] at hg
      rw [← hg]
  | none =>
      rw [hlk] at hg
      by_cases hm : (Font.Raw f).1 ≠ "font/ttf"
      · rw [if_pos hm] at hg
        exact absurd hg (by simp)
      · rw [if_neg hm] at hg
        simp only [Except.ok.injEq] at hg
        rw [← hg]
        exact registerFont_graphicsStates C s f

/-- A cached opacity entry survives every later operation: the
graphics-state map only ever grows. -/
theorem graphicsStates_mono (C : Codecs) {s : PW} (op : Op) {a : ℚ}
    {n : String} (h : lookupA s.graphicsStates a = some n) :
    lookupA (applyOp C s op).graphicsStates a = some n := by
  cases op with
  | writeObject v =>
      show lookupA (WriteObject C s v).1.graphicsStates a = some n
      rw [WriteObject_graphicsStates]; exact h
  | getOpacityGS b =>
      show lookupA (GetOpacityGS s b).1.graphicsStates a = some n
      cases hlk : lookupA s.graphicsStates b with
      | some m => simp only [GetOpacityGS, hlk]; exact h
      | none =>
          simp only [GetOpacityGS, hlk]
          exact lookupA_append_of_some _ h
  | getFont f =>
      show lookupA (match GetFont C s f with
        | .ok p => p.1 | .error _ => s).graphicsStates a = some n
      cases hg : GetFont C s f with
      | error msg => exact h
      | ok p => rw [GetFont_ok_graphicsStates C hg]; exact h

theorem applyOps_graphicsStates_mono (C : Codecs) (ops : List Op) :
    ∀ {s : PW} {a : ℚ} {n : String}, lookupA s.graphicsStates a = some n →
      lookupA (applyOps C s ops).graphicsStates a = some n := by
  induction ops with
  | nil => intro s a n h; exact h
  | cons op ops ih =>
      intro s a n h
      exact ih (graphicsStates_mono C op h)

theorem GetOpacityGS_cached {s : PW} {a : ℚ} {n : String}
    (h : lookupA s.graphicsStates a = some n) : GetOpacityGS s a = (s, n) := by
  simp only [GetOpacityGS, h]

/-- After any `GetOpacityGS` call the opacity is in the cache, mapped to
the returned name. -/
theorem GetOpacityGS_lookup (s : PW) (a : ℚ) :
    lookupA (GetOpacityGS s a).1.graphicsStates a = some (GetOpacityGS s a).2 := by
  cases hlk : lookupA s.graphicsStates a with
  | some n => simp only [GetOpacityGS, hlk]
  | none =>
      simp only [GetOpacityGS, hlk]
      rw [lookupA_append_of_none _ hlk]
      simp [lookupA]

theorem countP_fst_eq_one {l : List (ℚ × String)} {a : ℚ}
    (hnd : (l.map Prod.fst).Nodup) (h : (lookupA l a).isSome = true) :
    l.countP (fun p => decide (p.1 = a)) = 1 := by
  induction l with
  | nil => simp [lookupA] at h
  | cons q l ih =>
      obtain ⟨k, v⟩ := q
      rw [List.map_cons, List.nodup_cons] at hnd
      by_cases hk : k = a
      · subst hk
        rw [List.countP_cons]
        have hz : l.countP (fun p => decide (p.1 = k)) = 0 := by
          rw [List.countP_eq_zero]
          intro p hp hpk
          simp only [decide_eq_true_eq] at hpk
          have hm : p.1 ∈ l.map Prod.fst := List.mem_map_of_mem Prod.fst hp
          rw [hpk] at hm
          exact hnd.1 hm
        simp [hz]
      · simp only [lookupA, if_neg hk] at h
        rw [List.countP_cons]
        have := ih hnd.2 h
        simp [this, hk]

/-- C7: `GetOpacityGS` writes nothing to the output (no indirect object,
no bytes, no offset, no error); calling it again with the same opacity —
after any further operations — returns the identical name and leaves the
state untouched; and after a call with opacity `a` the `ExtGState`
sub-dictionary holds exactly one entry whose `ca` value is `a`. -/
theorem C7_opacity_resource (C : Codecs) (s : PW) (a : ℚ)
    (hr : Reachable C s) :
    ((GetOpacityGS s a).1.out = s.out ∧ (GetOpacityGS s a).1.pos = s.pos ∧
     (GetOpacityGS s a).1.err = s.err ∧ (GetOpacityGS s a).1.sink = s.sink ∧
     (GetOpacityGS s a).1.objOffsets = s.objOffsets ∧
     (GetOpacityGS s a).1.writeCalls = s.writeCalls) ∧
    (∀ ops, GetOpacityGS (applyOps C (GetOpacityGS s a).1 ops) a =
      (applyOps C (GetOpacityGS s a).1 ops, (GetOpacityGS s a).2)) ∧
    (GetOpacityGS s a).1.resExtGState.countP (fun p => decide (p.2 = a)) = 1 := by
  refine ⟨GetOpacityGS_io s a, ?_, ?_⟩
  · intro ops
    exact GetOpacityGS_cached
      (applyOps_graphicsStates_mono C ops (GetOpacityGS_lookup s a))
  · have hinv : Inv (GetOpacityGS s a).1 :=
      inv_GetOpacityGS a (reachable_inv hr)
    obtain ⟨-, -, -, h4, h5⟩ := hinv
    rw [h4, List.countP_map]
    have hsome : (lookupA (GetOpacityGS s a).1.graphicsStates a).isSome = true := by
      rw [GetOpacityGS_lookup s a]
      rfl
    have := countP_fst_eq_one h5 hsome
    convert this using 2

/-- Witness for C7: opacity 1/2 requested of a fresh writer, with an
unrelated opacity request in between before the repeat call. -/
theorem C7_opacity_resource_witness :
    ((GetOpacityGS (NewPDFWriter [] 100 200) (1/2)).1.out =
        (NewPDFWriter [] 100 200).out ∧
     (GetOpacityGS (NewPDFWriter [] 100 200) (1/2)).1.writeCalls =
        (NewPDFWriter [] 100 200).writeCalls) ∧
    (GetOpacityGS
        (applyOps sampleCodecs
          (GetOpacityGS (NewPDFWriter [] 100 200) (1/2)).1
          [.getOpacityGS (1/3)]) (1/2) =
      (applyOps sampleCodecs
          (GetOpacityGS (NewPDFWriter [] 100 200) (1/2)).1
          [.getOpacityGS (1/3)],
       (GetOpacityGS (NewPDFWriter [] 100 200) (1/2)).2)) ∧
    (GetOpacityGS (NewPDFWriter [] 100 200) (1/2)).1.resExtGState.countP
      (fun p => decide (p.2 = 1/2)) = 1 := by
  have h := C7_opacity_resource sampleCodecs (NewPDFWriter [] 100 200) (1/2)
    (Reachable.init [] 100 200)
  exact ⟨⟨h.1.1, h.1.2.2.2.2.2⟩, h.2.1 [.getOpacityGS (1/3)], h.2.2⟩

/-! ## C6: the font resource cache

The Go cache is `map[*Font]PDFName` (pdf.go line 22): the key is the
`*Font` pointer, i.e. memory identity, modelled by `Font.addr`.  Two
`Font` values with identical content but different addresses are distinct
cache keys, so the claim's content-based ("explicit, stable, comparable
identifier") reading fails; the dedup guarantee holds per pointer. -/

theorem registerFont_fonts (C : Codecs) (s : PW) (f : Font) :
    (registerFont C s f).1.fonts =
      s.fonts ++ [(f.addr, "F" ++ toString s.fonts.length)] := by
  show (WriteObject C s (fontStream (f.fname.replace " " "_"))).1.fonts ++
      [(f.addr, "F" ++ toString (WriteObject C s (fontStream
        (f.fname.replace " " "_"))).1.fonts.length)] =
    s.fonts ++ [(f.addr, "F" ++ toString s.fonts.length)]
  rw [WriteObject_fonts]

theorem registerFont_snd (C : Codecs) (s : PW) (f : Font) :
    (registerFont C s f).2 = "F" ++ toString s.fonts.length := by
  show "F" ++ toString (WriteObject C s (fontStream
      (f.fname.replace " " "_"))).1.fonts.length = _
  rw [WriteObject_fonts]

theorem fonts_mono (C : Codecs) {s : PW} (op : Op) {a : ℕ} {n : String}
    (h : lookupA s.fonts a = some n) :
    lookupA (applyOp C s op).fonts a = some n := by
  cases op with
  | writeObject v =>
      show lookupA (WriteObject C s v).1.fonts a = some n
      rw [WriteObject_fonts]; exact h
  | getOpacityGS b =>
      show lookupA (GetOpacityGS s b).1.fonts a = some n
      cases hlk : lookupA s.graphicsStates b with
      | some m => simp only [GetOpacityGS, hlk]; exact h
      | none => simp only [GetOpacityGS, hlk]; exact h
  | getFont f =>
      show lookupA (match GetFont C s f with
        | .ok p => p.1 | .error _ => s).fonts a = some n
      cases hg : GetFont C s f with
      | error msg => exact h
      | ok p =>
          unfold GetFont at hg
          cases hlk : lookupA s.fonts f.addr with
          | some name =>
              rw [hlk] at hg
              simp only [Except.ok.injEq] at hg
              rw [← hg]
              exact h
          | none =>
              rw [hlk] at hg
              by_cases hm : (Font.Raw f).1 ≠ "font/ttf"
              · rw [if_pos hm] at hg
                exact absurd hg (by simp)
              · rw [if_neg hm] at hg
                simp only [Except.ok.injEq] at hg
                rw [← hg, registerFont_fonts]
                exact lookupA_append_of_some _ h

theorem applyOps_fonts_mono (C : Codecs) (ops : List Op) :
    ∀ {s : PW} {a : ℕ} {n : String}, lookupA s.fonts a = some n →
      lookupA (applyOps C s ops).fonts a = some n := by
  induction ops with
  | nil => intro s a n h; exact h
  | cons op ops ih =>
      intro s a n h
      exact ih (fonts_mono C op h)

theorem GetFont_cached (C : Codecs) {s : PW} {f : Font} {n : String}
    (h : lookupA s.fonts f.addr = some n) : GetFont C s f = .ok (s, n) := by
  simp only [GetFont, h]

theorem GetFont_ok_lookup (C : Codecs) {s : PW} {f : Font} {p : PW × String}
    (hg : GetFont C s f = .ok p) : lookupA p.1.fonts f.addr = some p.2 := by
  unfold GetFont at hg
  cases hlk : lookupA s.fonts f.addr with
  | some name =>
      rw [hlk] at hg
      simp only [Except.ok.injEq] at hg
      rw [← hg]
      exact hlk
  | none =>
      rw [hlk] at hg
      by_cases hm : (Font.Raw f).1 ≠ "font/ttf"
      · rw [if_pos hm] at hg
        exact absurd hg (by simp)
      · rw [if_neg hm] at hg
        simp only [Except.ok.injEq] at hg
        rw [← hg, registerFont_fonts, registerFont_snd]
        rw [lookupA_append_of_none _ hlk]
        simp [lookupA]

/-- C6 (amended): once `GetFont` has resolved a `*Font` pointer to a name,
every later call with the same pointer — after any further operations —
returns the identical name and the state unchanged: no second font object,
no output, no new cache entry for that pointer. -/
theorem C6_font_pointer_identity (C : Codecs) (s : PW) (f : Font)
    (p : PW × String) (hg : GetFont C s f = .ok p) (ops : List Op) :
    GetFont C (applyOps C p.1 ops) f = .ok (applyOps C p.1 ops, p.2) :=
  GetFont_cached C (applyOps_fonts_mono C ops (GetFont_ok_lookup C hg))

/-- Witness for C6 (amended): the same `Font` pointer requested again after
an unrelated opacity operation yields the same name `F0` with the state
untouched. -/
theorem C6_font_pointer_identity_witness :
    GetFont sampleCodecs
        (applyOps sampleCodecs
          (registerFont sampleCodecs (NewPDFWriter [] 100 200)
            ⟨0, "Arial", "font/ttf", []⟩).1 [])
        ⟨0, "Arial", "font/ttf", []⟩ =
      .ok (applyOps sampleCodecs
          (registerFont sampleCodecs (NewPDFWriter [] 100 200)
            ⟨0, "Arial", "font/ttf", []⟩).1 [],
        (registerFont sampleCodecs (NewPDFWriter [] 100 200)
          ⟨0, "Arial", "font/ttf", []⟩).2) ∧
    (registerFont sampleCodecs (NewPDFWriter [] 100 200)
      ⟨0, "Arial", "font/ttf", []⟩).2 = "F0" :=
  ⟨C6_font_pointer_identity sampleCodecs (NewPDFWriter [] 100 200)
    ⟨0, "Arial", "font/ttf", []⟩ _ rfl [], rfl⟩

/-- Counterexample to C6 as stated: two fonts with identical content
(name, format tag, raw bytes) — the same font identity under any explicit,
stable, comparable identifier — but distinct memory addresses get two
distinct resource names and two font objects (two `WriteObject` calls),
because the Go cache keys on the `*Font` pointer. -/
theorem C6_font_content_identity_counterexample :
    ((GetFont sampleCodecs (NewPDFWriter [] 100 200)
        ⟨0, "Arial", "font/ttf", []⟩).toOption.map Prod.snd = some "F0") ∧
    ((GetFont sampleCodecs
        (applyOp sampleCodecs (NewPDFWriter [] 100 200)
          (.getFont ⟨0, "Arial", "font/ttf", []⟩))
        ⟨1, "Arial", "font/ttf", []⟩).toOption.map Prod.snd = some "F1") ∧
    "F0" ≠ "F1" ∧
    (applyOps sampleCodecs (NewPDFWriter [] 100 200)
      [.getFont ⟨0, "Arial", "font/ttf", []⟩,
       .getFont ⟨1, "Arial", "font/ttf", []⟩]).writeCalls = 2 ∧
    (NewPDFWriter [] 100 200).writeCalls = 0 :=
  ⟨rfl, rfl, by decide, rfl, rfl⟩

/-! ## C9: the font-format precondition -/

/-- C9: on first use (no cache entry for the pointer) of a font whose
format tag is not `font/ttf`, `GetFont` panics — modelled as `Except.error`
with the source's message — producing no successor state at all: nothing
is written and nothing is cached (the state is exactly the pre-state, as
`applyOp` records for an aborted call).  Under the precondition that the
format tag is `font/ttf`, the panic branch is unreachable: `GetFont`
always returns `.ok`. -/
theorem C9_font_format_precondition (C : Codecs) (s : PW) (f : Font) :
    (lookupA s.fonts f.addr = none → (Font.Raw f).1 ≠ "font/ttf" →
      GetFont C s f =
        .error "only TTF format support for embedding fonts in PDFs" ∧
      applyOp C s (.getFont f) = s) ∧
    ((Font.Raw f).1 = "font/ttf" → (GetFont C s f).isOk = true) := by
  constructor
  · intro hlk hm
    have hge : GetFont C s f =
        .error "only TTF format support for embedding fonts in PDFs" := by
      simp only [GetFont, hlk, if_pos hm]
    refine ⟨hge, ?_⟩
    show (match GetFont C s f with | .ok p => p.1 | .error _ => s) = s
    rw [hge]
  · intro hm
    cases hlk : lookupA s.fonts f.addr with
    | some name => rw [GetFont_cached C hlk]; rfl
    | none =>
        have hnn : ¬(Font.Raw f).1 ≠ "font/ttf" := fun hc => hc hm
        simp only [GetFont, hlk, if_neg hnn]
        rfl

/-- Witness for C9: a fresh writer and a font tagged `font/otf` (rejected,
no state) versus one tagged `font/ttf` (accepted). -/
theorem C9_font_format_precondition_witness :
    (GetFont sampleCodecs (NewPDFWriter [] 100 200)
        ⟨0, "Arial", "font/otf", []⟩ =
      .error "only TTF format support for embedding fonts in PDFs" ∧
     applyOp sampleCodecs (NewPDFWriter [] 100 200)
        (.getFont ⟨0, "Arial", "font/otf", []⟩) = NewPDFWriter [] 100 200) ∧
    (GetFont sampleCodecs (NewPDFWriter [] 100 200)
        ⟨0, "Arial", "font/ttf", []⟩).isOk = true := by
  have h := C9_font_format_precondition sampleCodecs
    (NewPDFWriter [] 100 200) ⟨0, "Arial", "font/otf", []⟩
  have h2 := C9_font_format_precondition sampleCodecs
    (NewPDFWriter [] 100 200) ⟨0, "Arial", "font/ttf", []⟩
  exact ⟨h.1 rfl (by decide), h2.2 rfl⟩

/-! ## C3: stream rendering

The stream case of `renderVal` renders the mutated dictionary through the
structurally recursive `renderStreamEntries`/`missingStreamEntries` pair;
the lemmas below show this equals `renderEntries` of `streamDict`, i.e.
rendering the dictionary with `Filter` and `Length` injected. -/

/-- The value stored under `Filter` when there is at least one filter. -/
def filterEntryVal (fs : List PDFFilter) : PDFVal :=
  (filterEntry fs).getD .unsupported

/-- `renderEntries` with every entry keyed `k` rendered as the fixed bytes
`w` instead of its own value. -/
def renderEntriesSubst (C : Codecs) (k : String) (w : Bytes) :
    List (String × PDFVal) → Bytes
  | [] => []
  | (q, v) :: d =>
      if q = k then renderName k ++ ' ' :: w ++ ' ' :: renderEntriesSubst C k w d
      else renderName q ++ ' ' :: renderVal C v ++ ' ' :: renderEntriesSubst C k w d

/-- `renderEntries` with entries keyed `k1` (resp. `k2`) rendered as the
fixed bytes `w1` (resp. `w2`). -/
def renderEntriesSubst2 (C : Codecs) (k1 : String) (w1 : Bytes) (k2 : String)
    (w2 : Bytes) : List (String × PDFVal) → Bytes
  | [] => []
  | (q, v) :: d =>
      if q = k1 then
        renderName k1 ++ ' ' :: w1 ++ ' ' :: renderEntriesSubst2 C k1 w1 k2 w2 d
      else if q = k2 then
        renderName k2 ++ ' ' :: w2 ++ ' ' :: renderEntriesSubst2 C k1 w1 k2 w2 d
      else renderName q ++ ' ' :: renderVal C v ++ ' ' ::
        renderEntriesSubst2 C k1 w1 k2 w2 d

theorem renderEntriesSubst_of_not_mem (C : Codecs) {k : String} (w : Bytes)
    {d : List (String × PDFVal)} (h : k ∉ d.map Prod.fst) :
    renderEntriesSubst C k w d = renderEntries C d := by
  induction d with
  | nil => rfl
  | cons q d ih =>
      obtain ⟨q1, v⟩ := q
      simp only [List.map_cons, List.mem_cons] at h
      push_neg at h
      rw [renderEntriesSubst, if_neg (fun hq => h.1 hq.symm), renderEntries,
        ih h.2]

theorem renderEntriesSubst2_of_not_mem (C : Codecs) {k1 : String}
    (w1 : Bytes) (k2 : String) (w2 : Bytes) {d : List (String × PDFVal)}
    (h : k1 ∉ d.map Prod.fst) :
    renderEntriesSubst2 C k1 w1 k2 w2 d = renderEntriesSubst C k2 w2 d := by
  induction d with
  | nil => rfl
  | cons q d ih =>
      obtain ⟨q1, v⟩ := q
      simp only [List.map_cons, List.mem_cons] at h
      push_neg at h
      rw [renderEntriesSubst2, if_neg (fun hq => h.1 hq.symm)]
      rw [renderEntriesSubst, ih h.2]

/-- Rendering a dictionary after one map store: each existing entry keyed
`k` shows the new value, and if the key was absent a new entry is appended
at the end. -/
theorem renderEntries_setKey (C : Codecs) {d : List (String × PDFVal)}
    (k : String) (v : PDFVal) (hnd : (d.map Prod.fst).Nodup) :
    renderEntries C (setKey d k v) =
      renderEntriesSubst C k (renderVal C v) d ++
        (if (lookupA d k).isNone then
          renderName k ++ ' ' :: renderVal C v ++ [' ']
        else []) := by
  induction d with
  | nil =>
      simp [setKey, renderEntriesSubst, renderEntries, lookupA]
  | cons q d ih =>
      obtain ⟨q1, w⟩ := q
      rw [List.map_cons, List.nodup_cons] at hnd
      by_cases hq : q1 = k
      · subst hq
        rw [setKey, if_pos rfl, renderEntries, renderEntriesSubst, if_pos rfl]
        rw [renderEntriesSubst_of_not_mem C (renderVal C v) hnd.1]
        simp [lookupA]
      · rw [setKey, if_neg hq, renderEntries, renderEntriesSubst, if_neg hq,
          ih hnd.2]
        simp only [lookupA, if_neg hq]
        simp [List.append_assoc]

theorem map_fst_setKey {α β : Type} [DecidableEq α]
    (l : List (α × β)) (k : α) (v : β) :
    (setKey l k v).map Prod.fst =
      if k ∈ l.map Prod.fst then l.map Prod.fst
      else l.map Prod.fst ++ [k] := by
  induction l with
  | nil => simp [setKey]
  | cons q l ih =>
      obtain ⟨q1, w⟩ := q
      by_cases hq : q1 = k
      · subst hq
        simp [setKey]
      · rw [setKey, if_neg hq, List.map_cons, ih, List.map_cons]
        by_cases hk : k ∈ l.map Prod.fst
        · rw [if_pos hk, if_pos (List.mem_cons_of_mem _ hk)]
        · have hnk : k ∉ q1 :: l.map Prod.fst := by
            intro hc
            rcases List.mem_cons.mp hc with h1 | h2
            · exact hq h1.symm
            · exact hk h2
          rw [if_neg hk, if_neg hnk]
          simp

theorem setKey_keys_nodup {α β : Type} [DecidableEq α]
    {l : List (α × β)} (k : α) (v : β) (hnd : (l.map Prod.fst).Nodup) :
    ((setKey l k v).map Prod.fst).Nodup := by
  rw [map_fst_setKey]
  by_cases hk : k ∈ l.map Prod.fst
  · rw [if_pos hk]; exact hnd
  · rw [if_neg hk, List.nodup_append]
    refine ⟨hnd, List.nodup_singleton k, ?_⟩
    intro a ha hb
    rw [List.mem_singleton] at hb
    subst hb
    exact hk ha

/-- Rendering the substitution of `k2` through a store of the distinct key
`k1`: the stored value shows at `k1`'s position (or is appended), while the
`k2` substitution passes through. -/
theorem renderEntriesSubst_setKey (C : Codecs) {k1 : String} (v1 : PDFVal)
    {k2 : String} (w2 : Bytes) (hne : k1 ≠ k2) {d : List (String × PDFVal)}
    (hnd : (d.map Prod.fst).Nodup) :
    renderEntriesSubst C k2 w2 (setKey d k1 v1) =
      renderEntriesSubst2 C k1 (renderVal C v1) k2 w2 d ++
        (if (lookupA d k1).isNone then
          renderName k1 ++ ' ' :: renderVal C v1 ++ [' ']
        else []) := by
  induction d with
  | nil =>
      rw [setKey]
      rw [renderEntriesSubst, if_neg hne]
      simp [renderEntriesSubst, renderEntriesSubst2, lookupA]
  | cons q d ih =>
      obtain ⟨q1, w⟩ := q
      rw [List.map_cons, List.nodup_cons] at hnd
      by_cases hq : q1 = k1
      · subst hq
        rw [setKey, if_pos rfl, renderEntriesSubst, if_neg hne,
          renderEntriesSubst2, if_pos rfl]
        rw [renderEntriesSubst2_of_not_mem C (renderVal C v1) k2 w2 hnd.1]
        simp [lookupA]
      · rw [setKey, if_neg hq, renderEntriesSubst, renderEntriesSubst2,
          if_neg hq, ih hnd.2]
        simp only [lookupA, if_neg hq]
        by_cases hq2 : q1 = k2 <;> simp [hq2, List.append_assoc]

theorem filterNames_length (fs : List PDFFilter) :
    (filterNames fs).length = fs.length := by
  simp [filterNames]

theorem filterEntry_of_ne_nil {fs : List PDFFilter} (h : fs ≠ []) :
    filterEntry fs = some (filterEntryVal fs) := by
  unfold filterEntryVal
  cases hq : filterEntry fs with
  | some v => rfl
  | none =>
      unfold filterEntry at hq
      cases hn : filterNames fs with
      | nil =>
          have hlen := congrArg List.length hn
          rw [filterNames_length] at hlen
          exact absurd (List.length_eq_zero.mp hlen) h
      | cons x xs =>
          rw [hn] at hq
          cases xs <;> simp at hq

theorem renderArr_names (C : Codecs) (gs : List String) :
    renderArr C (gs.map (fun f => PDFVal.name f)) = renderFilterNames gs := by
  induction gs with
  | nil => rfl
  | cons f gs ih =>
      cases gs with
      | nil => rfl
      | cons g t =>
          rw [List.map_cons]
          rw [show renderArr C (PDFVal.name f :: (g :: t).map
              (fun f => PDFVal.name f)) =
            renderVal C (PDFVal.name f) ++ ' ' ::
              renderArr C ((g :: t).map (fun f => PDFVal.name f)) from rfl]
          rw [ih]
          rfl

theorem renderVal_filterEntryVal (C : Codecs) {fs : List PDFFilter}
    (h : fs ≠ []) :
    renderVal C (filterEntryVal fs) = renderFilterEntry fs := by
  have hrev : fs.reverse ≠ [] := by simpa using h
  unfold filterEntryVal filterEntry renderFilterEntry
  unfold filterNames
  cases hr : fs.reverse with
  | nil => exact absurd hr hrev
  | cons f gs =>
      cases gs with
      | nil => rfl
      | cons g t =>
          rw [List.map_cons, List.map_cons]
          show renderVal C (PDFVal.arr (PDFVal.name f :: PDFVal.name g ::
            t.map (fun f => PDFVal.name f))) = _
          rw [show renderVal C (PDFVal.arr (PDFVal.name f :: PDFVal.name g ::
              t.map (fun f => PDFVal.name f))) =
            '[' :: renderArr C (PDFVal.name f :: PDFVal.name g ::
              t.map (fun f => PDFVal.name f)) ++ [']'] from rfl]
          have := renderArr_names C (f :: g :: t)
          rw [List.map_cons, List.map_cons] at this
          rw [this]

theorem renderStreamEntries_of_nil (C : Codecs) (L : ℕ)
    (d : List (String × PDFVal)) :
    renderStreamEntries C [] L d =
      renderEntriesSubst C "Length" (lit (toString (L : ℤ))) d := by
  induction d with
  | nil => rfl
  | cons q d ih =>
      obtain ⟨q1, v⟩ := q
      rw [renderStreamEntries, renderEntriesSubst]
      have hf : ¬(q1 = "Filter" ∧ ([] : List PDFFilter) ≠ []) := by simp
      rw [if_neg hf, ih]
      by_cases hq : q1 = "Length" <;> simp [hq, List.append_assoc]

theorem renderStreamEntries_of_ne_nil (C : Codecs) {fs : List PDFFilter}
    (h : fs ≠ []) (L : ℕ) (d : List (String × PDFVal)) :
    renderStreamEntries C fs L d =
      renderEntriesSubst2 C "Filter" (renderFilterEntry fs) "Length"
        (lit (toString (L : ℤ))) d := by
  induction d with
  | nil => rfl
  | cons q d ih =>
      obtain ⟨q1, v⟩ := q
      rw [renderStreamEntries, renderEntriesSubst2, ih]
      by_cases hq : q1 = "Filter"
      · rw [if_pos ⟨hq, h⟩, if_pos hq]
        simp [List.append_assoc]
      · have hf : ¬(q1 = "Filter" ∧ fs ≠ []) := fun hc => hq hc.1
        rw [if_neg hf, if_neg hq]
        by_cases hq2 : q1 = "Length" <;> simp [hq2, List.append_assoc]

/-- The bridge: the stream case's entry rendering is exactly the rendering
of the mutated dictionary `streamDict`. -/
theorem renderEntries_streamDict (C : Codecs) {d : List (String × PDFVal)}
    (fs : List PDFFilter) (L : ℕ) (hnd : (d.map Prod.fst).Nodup) :
    renderEntries C (streamDict d fs L) =
      renderStreamEntries C fs L d ++ missingStreamEntries fs L d := by
  cases hfs : fs with
  | nil =>
      show renderEntries C (setKey d "Length" (.int L)) = _
      rw [renderEntries_setKey C "Length" (.int L) hnd]
      rw [renderStreamEntries_of_nil]
      unfold missingStreamEntries
      have hf : ¬(([] : List PDFFilter) ≠ [] ∧ (lookupA d "Filter").isNone) := by
        simp
      rw [if_neg hf, List.nil_append]
      rfl
  | cons f fs' =>
      have hne : (f :: fs' : List PDFFilter) ≠ [] := by simp
      have hfe : filterEntry (f :: fs') = some (filterEntryVal (f :: fs')) :=
        filterEntry_of_ne_nil hne
      show renderEntries C (setKey (match filterEntry (f :: fs') with
          | none => d
          | some fv => setKey d "Filter" fv) "Length" (.int L)) =
        renderStreamEntries C (f :: fs') L d ++
          missingStreamEntries (f :: fs') L d
      rw [hfe]
      rw [renderEntries_setKey C "Length" (.int L)
        (setKey_keys_nodup "Filter" (filterEntryVal (f :: fs')) hnd)]
      rw [show renderVal C (PDFVal.int (L : ℤ)) = lit (toString (L : ℤ))
        from rfl]
      rw [lookupA_setKey_of_ne d (filterEntryVal (f :: fs'))
        (show ("Filter" : String) ≠ "Length" by decide)]
      rw [renderEntriesSubst_setKey C (filterEntryVal (f :: fs'))
        (lit (toString (L : ℤ)))
        (show ("Filter" : String) ≠ "Length" by decide) hnd]
      rw [renderVal_filterEntryVal C hne]
      rw [renderStreamEntries_of_ne_nil C hne]
      unfold missingStreamEntries
      rw [List.append_assoc]
      congr 1
      congr 1
      by_cases hlf : (lookupA d "Filter").isNone
      · rw [if_pos hlf, if_pos ⟨hne, hlf⟩]
      · rw [if_neg hlf, if_neg (fun hc => hlf hc.2)]

theorem filterEntry_of_two {fs : List PDFFilter} (h : 2 ≤ fs.length) :
    filterEntry fs = some (.arr (filterNames fs)) := by
  have hlen : 2 ≤ (filterNames fs).length := by
    rw [filterNames_length]; exact h
  unfold filterEntry
  cases hn : filterNames fs with
  | nil => rw [hn] at hlen; simp at hlen
  | cons x xs =>
      cases xs with
      | nil => rw [hn] at hlen; simp at hlen
      | cons y t => rfl

/-- C3: stream rendering.  The filters are applied left to right, each
stage's output feeding the next; the rendered stream is the rendering of
the mutated dictionary followed by the `stream` payload `endstream` block;
the mutated dictionary's `Length` is the encoded byte count; its `Filter`
entry is absent when the filter list is empty, the single name when it has
one element, and the array of names in reverse (decode) order when it has
two or more. -/
theorem C3_stream_rendering (C : Codecs) (d : List (String × PDFVal))
    (fs : List PDFFilter) (b : Bytes) (hnd : (d.map Prod.fst).Nodup) :
    (∀ (f : PDFFilter) (gs : List PDFFilter) (b0 : Bytes),
      applyFilters C (f :: gs) b0 = applyFilters C gs (applyFilter C f b0)) ∧
    renderVal C (.stream d fs b) =
      renderVal C (.dict (streamDict d fs (applyFilters C fs b).length)) ++
        (lit "\nstream\n" ++ (applyFilters C fs b ++ lit "\nendstream")) ∧
    lookupA (streamDict d fs (applyFilters C fs b).length) "Length" =
      some (.int (applyFilters C fs b).length) ∧
    (fs = [] → lookupA d "Filter" = none →
      lookupA (streamDict d fs (applyFilters C fs b).length) "Filter" =
        none) ∧
    (∀ f, fs = [f] →
      lookupA (streamDict d fs (applyFilters C fs b).length) "Filter" =
        some (.name f)) ∧
    (2 ≤ fs.length →
      lookupA (streamDict d fs (applyFilters C fs b).length) "Filter" =
        some (.arr (filterNames fs))) := by
  refine ⟨fun f gs b0 => rfl, ?_, ?_, ?_, ?_, ?_⟩
  · have hb := renderEntries_streamDict C fs (applyFilters C fs b).length hnd
    show lit "<< " ++ renderStreamEntries C fs (applyFilters C fs b).length d
        ++ missingStreamEntries fs (applyFilters C fs b).length d
        ++ lit ">>" ++ lit "\nstream\n" ++ applyFilters C fs b
        ++ lit "\nendstream" =
      (lit "<< " ++
        renderEntries C (streamDict d fs (applyFilters C fs b).length) ++
        lit ">>") ++
        (lit "\nstream\n" ++ (applyFilters C fs b ++ lit "\nendstream"))
    rw [hb]
    simp [List.append_assoc]
  · show lookupA (setKey (match filterEntry fs with
      | none => d
      | some fv => setKey d "Filter" fv) "Length"
        (.int (applyFilters C fs b).length)) "Length" = _
    exact lookupA_setKey_self _ _ _
  · intro hfs hF
    subst hfs
    show lookupA (setKey d "Length"
      (.int (applyFilters C [] b).length)) "Filter" = none
    rw [lookupA_setKey_of_ne d _
      (show ("Length" : String) ≠ "Filter" by decide)]
    exact hF
  · intro f hfs
    subst hfs
    show lookupA (setKey (setKey d "Filter" (.name f)) "Length"
      (.int (applyFilters C [f] b).length)) "Filter" = _
    rw [lookupA_setKey_of_ne _ _
      (show ("Length" : String) ≠ "Filter" by decide)]
    exact lookupA_setKey_self _ _ _
  · intro h2
    have hfe := filterEntry_of_two h2
    show lookupA (setKey (match filterEntry fs with
      | none => d
      | some fv => setKey d "Filter" fv) "Length"
        (.int (applyFilters C fs b).length)) "Filter" = _
    rw [hfe]
    show lookupA (setKey (setKey d "Filter" (.arr (filterNames fs))) "Length"
      (.int (applyFilters C fs b).length)) "Filter" = _
    rw [lookupA_setKey_of_ne _ _
      (show ("Length" : String) ≠ "Filter" by decide)]
    exact lookupA_setKey_self _ _ _

/-- Witness for C3: a stream of the five bytes `hello` with no filters
renders with `Length` 5, exactly as the spec's scenario requires. -/
theorem C3_stream_rendering_witness :
    renderVal sampleCodecs (.stream [] [] (lit "hello")) =
      lit "<< /Length 5 >>\nstream\nhello\nendstream" ∧
    lookupA (streamDict [] []
        (applyFilters sampleCodecs [] (lit "hello")).length) "Length" =
      some (.int 5) ∧
    (applyFilters sampleCodecs [] (lit "hello")).length = 5 := by
  have h := C3_stream_rendering sampleCodecs [] [] (lit "hello") (by simp)
  exact ⟨rfl, h.2.2.1, rfl⟩

/-! ## C5: the cross-reference table -/

theorem foldl_writeBytes_err_back (f : ℕ → Bytes) (offs : List ℕ) :
    ∀ {t : PW},
      (offs.foldl (fun st off => writeBytes st (f off)) t).err = none →
      t.err = none := by
  induction offs with
  | nil => intro t h; exact h
  | cons o os ih =>
      intro t h
      rw [List.foldl_cons] at h
      exact writeBytes_err_none _ _ (ih h)

theorem foldl_writeBytes_success (f : ℕ → Bytes) (offs : List ℕ) :
    ∀ {t : PW}, t.err = none →
      (offs.foldl (fun st off => writeBytes st (f off)) t).err = none →
      (offs.foldl (fun st off => writeBytes st (f off)) t).out =
        t.out ++ (offs.map f).flatten := by
  induction offs with
  | nil => intro t he he2; simp
  | cons o os ih =>
      intro t he he2
      rw [List.foldl_cons] at he2 ⊢
      have hmid : (writeBytes t (f o)).err = none :=
        foldl_writeBytes_err_back f os he2
      obtain ⟨ho, -⟩ := writeBytes_success t (f o) he hmid
      rw [ih hmid he2, ho]
      simp [List.append_assoc]

theorem foldl_writeBytes_fields (f : ℕ → Bytes) (offs : List ℕ) :
    ∀ {t : PW},
      (offs.foldl (fun st off => writeBytes st (f off)) t).objOffsets =
        t.objOffsets ∧
      (offs.foldl (fun st off => writeBytes st (f off)) t).writeCalls =
        t.writeCalls := by
  induction offs with
  | nil => intro t; exact ⟨rfl, rfl⟩
  | cons o os ih =>
      intro t
      rw [List.foldl_cons]
      obtain ⟨h1, h2⟩ := @ih (writeBytes t (f o))
      rw [h1, h2, writeBytes_objOffsets, writeBytes_writeCalls]
      exact ⟨rfl, rfl⟩

theorem closeTail_err_back (C : Codecs) {s3 : PW} (rc : ℤ)
    (h : (closeTail C s3 rc).err = none) : s3.err = none := by
  unfold closeTail xrefWrites at h
  exact writeBytes_err_none _ _ (foldl_writeBytes_err_back xrefEntry _
    (writeBytes_err_none _ _ (writeBytes_err_none _ _
      (writeBytes_err_none _ _ h))))

theorem closeTail_fields (C : Codecs) (s3 : PW) (rc : ℤ) :
    (closeTail C s3 rc).objOffsets = s3.objOffsets ∧
    (closeTail C s3 rc).writeCalls = s3.writeCalls := by
  unfold closeTail xrefWrites
  rw [writeBytes_objOffsets, writeBytes_objOffsets, writeBytes_objOffsets,
    (foldl_writeBytes_fields xrefEntry _).1, writeBytes_objOffsets]
  rw [writeBytes_writeCalls, writeBytes_writeCalls, writeBytes_writeCalls,
    (foldl_writeBytes_fields xrefEntry _).2, writeBytes_writeCalls]
  exact ⟨rfl, rfl⟩

/-- The bytes the error-free close tail appends: the cross-reference
header write (with the free-list entry), one fixed-width entry per recorded
offset in order, the `trailer` keyword, the trailer dictionary and the
footer pointing at the position the cross-reference section started at. -/
theorem closeTail_success (C : Codecs) (s3 : PW) (rc : ℤ)
    (he : s3.err = none) (he2 : (closeTail C s3 rc).err = none) :
    (closeTail C s3 rc).out =
      s3.out ++ (xrefHeader s3.objOffsets.length ++
        ((s3.objOffsets.map xrefEntry).flatten ++
          (lit "trailer\n" ++
            (renderVal C (trailerDict rc s3.objOffsets.length) ++
              footer s3.pos)))) := by
  unfold closeTail at he2 ⊢
  have e4 : (writeBytes (writeBytes (xrefWrites s3) (lit "trailer\n"))
      (renderVal C (trailerDict rc s3.objOffsets.length))).err = none :=
    writeBytes_err_none _ _ he2
  have e3 : (writeBytes (xrefWrites s3) (lit "trailer\n")).err = none :=
    writeBytes_err_none _ _ e4
  have e2 : (xrefWrites s3).err = none := writeBytes_err_none _ _ e3
  have e1 : (writeBytes s3 (xrefHeader s3.objOffsets.length)).err = none := by
    unfold xrefWrites at e2
    exact foldl_writeBytes_err_back xrefEntry _ e2
  have hxw : (xrefWrites s3).out =
      s3.out ++ xrefHeader s3.objOffsets.length ++
        (s3.objOffsets.map xrefEntry).flatten := by
    unfold xrefWrites at e2 ⊢
    rw [foldl_writeBytes_success xrefEntry _ e1 e2,
      (writeBytes_success s3 _ he e1).1]
  obtain ⟨o3, -⟩ := writeBytes_success _ (lit "trailer\n") e2 e3
  obtain ⟨o4, -⟩ := writeBytes_success _
    (renderVal C (trailerDict rc s3.objOffsets.length)) e3 e4
  obtain ⟨o5, -⟩ := writeBytes_success _ (footer s3.pos) e4 he2
  rw [o5, o4, o3, hxw]
  simp [List.append_assoc]

theorem closeObjs_writeCalls (C : Codecs) (s : PW) :
    (closeObjs C s).1.writeCalls = s.writeCalls + 3 := by
  unfold closeObjs closeStep2 closeStep1
  rw [WriteObject_writeCalls, WriteObject_writeCalls, WriteObject_writeCalls]

theorem strLength_append (a b : String) :
    (a ++ b).length = a.length + b.length := by
  show (a.data ++ b.data).length = a.data.length + b.data.length
  exact List.length_append _ _

theorem pad10_length {off : ℕ} (h : off < 10 ^ 10) :
    (pad10 off).length = 10 := by
  have h1 : (toString off).length ≤ 10 :=
    Nat.repr_length off 10 (by norm_num) h
  unfold pad10
  rw [strLength_append]
  have h2 : (String.mk (List.replicate (10 - (toString off).length) '0')).length
      = 10 - (toString off).length := by
    show (List.replicate (10 - (toString off).length) '0').length = _
    exact List.length_replicate _ _
  rw [h2]
  omega

theorem xrefEntry_length {off : ℕ} (h : off < 10 ^ 10) :
    (xrefEntry off).length = 19 := by
  show (pad10 off ++ " 00000 n\n").data.length = 19
  have : (pad10 off ++ " 00000 n\n").length = 19 := by
    rw [strLength_append, pad10_length h]
    rfl
  exact this

/-- C5: after `close()` the cross-reference section's entry count is the
total number of `WriteObject` calls plus one.  The recorded offsets after
the three finalizer objects number exactly the total `WriteObject` calls of
the run (the `writeCalls` ghost counter); the emitted section is the header
write — whose subsection line announces `count + 1` entries and which
carries the free-list entry for object 0 — followed by one fixed-width
19-byte entry (10-digit zero-padded offset, 5-digit generation, `n` flag)
per recorded offset, in object-number order. -/
theorem C5_xref_table (C : Codecs) (s : PW) (hr : Reachable C s) :
    ((Close C s).1.writeCalls = s.writeCalls + 3 ∧
     (closeObjs C s).1.objOffsets.length = (Close C s).1.writeCalls ∧
     s.writeCalls = s.objOffsets.length) ∧
    ((Close C s).1.err = none → (Close C s).1.out =
      (closeObjs C s).1.out ++
        (xrefHeader (closeObjs C s).1.objOffsets.length ++
          (((closeObjs C s).1.objOffsets.map xrefEntry).flatten ++
            (lit "trailer\n" ++
              (renderVal C (trailerDict (closeObjs C s).2
                (closeObjs C s).1.objOffsets.length) ++
                footer (closeObjs C s).1.pos))))) ∧
    (∀ n, xrefHeader n =
      lit ("xref\n0 " ++ toString (n + 1) ++ "\n0000000000 65535 f\n")) ∧
    (∀ off, off < 10 ^ 10 →
      (pad10 off).length = 10 ∧ (xrefEntry off).length = 19) ∧
    (∀ off, xrefEntry off = lit (pad10 off ++ " 00000 n\n")) := by
  obtain ⟨-, -, hwc, -, -⟩ := reachable_inv hr
  refine ⟨⟨?_, ?_, hwc⟩, ?_, fun n => rfl, ?_, fun off => rfl⟩
  · show (closeTail C (closeObjs C s).1 (closeObjs C s).2).writeCalls =
      s.writeCalls + 3
    rw [(closeTail_fields C _ _).2]
    exact closeObjs_writeCalls C s
  · show (closeObjs C s).1.objOffsets.length =
      (closeTail C (closeObjs C s).1 (closeObjs C s).2).writeCalls
    rw [(closeTail_fields C _ _).2, closeObjs_writeCalls C s,
      closeObjs_objOffsets_length C s, hwc]
  · intro he2
    have he2' : (closeTail C (closeObjs C s).1 (closeObjs C s).2).err =
        none := he2
    have he' : (closeObjs C s).1.err = none :=
      closeTail_err_back C _ he2'
    exact closeTail_success C (closeObjs C s).1 (closeObjs C s).2 he' he2'
  · intro off hoff
    exact ⟨pad10_length hoff, xrefEntry_length hoff⟩

/-- Witness for C5: one `writeObject` of the integer 7 then `close()`;
the final table has 4 offsets = 4 `WriteObject` calls, and entries are
19 bytes wide with a 10-digit offset field. -/
theorem C5_xref_table_witness :
    (Close sampleCodecs (applyOp sampleCodecs (NewPDFWriter [] 100 200)
        (.writeObject (.int 7)))).1.writeCalls =
      (applyOp sampleCodecs (NewPDFWriter [] 100 200)
        (.writeObject (.int 7))).writeCalls + 3 ∧
    (applyOp sampleCodecs (NewPDFWriter [] 100 200)
        (.writeObject (.int 7))).writeCalls =
      (applyOp sampleCodecs (NewPDFWriter [] 100 200)
        (.writeObject (.int 7))).objOffsets.length ∧
    ((Close sampleCodecs (applyOp sampleCodecs (NewPDFWriter [] 100 200)
        (.writeObject (.int 7)))).1.out =
      (closeObjs sampleCodecs (applyOp sampleCodecs (NewPDFWriter [] 100 200)
          (.writeObject (.int 7)))).1.out ++
        (xrefHeader (closeObjs sampleCodecs (applyOp sampleCodecs
            (NewPDFWriter [] 100 200)
            (.writeObject (.int 7)))).1.objOffsets.length ++
          (((closeObjs sampleCodecs (applyOp sampleCodecs
              (NewPDFWriter [] 100 200)
              (.writeObject (.int 7)))).1.objOffsets.map xrefEntry).flatten ++
            (lit "trailer\n" ++
              (renderVal sampleCodecs (trailerDict (closeObjs sampleCodecs
                  (applyOp sampleCodecs (NewPDFWriter [] 100 200)
                    (.writeObject (.int 7)))).2
                  (closeObjs sampleCodecs (applyOp sampleCodecs
                    (NewPDFWriter [] 100 200)
                    (.writeObject (.int 7)))).1.objOffsets.length) ++
                footer (closeObjs sampleCodecs (applyOp sampleCodecs
                  (NewPDFWriter [] 100 200)
                  (.writeObject (.int 7)))).1.pos))))) ∧
    (pad10 9).length = 10 ∧ (xrefEntry 9).length = 19 := by
  have h := C5_xref_table sampleCodecs
    (applyOp sampleCodecs (NewPDFWriter [] 100 200) (.writeObject (.int 7)))
    (Reachable.step (Op.writeObject (.int 7)) (Reachable.init [] 100 200))
  exact ⟨h.1.1, h.1.2.2, h.2.1 rfl, (h.2.2.2.1 9 (by norm_num)).1,
    (h.2.2.2.1 9 (by norm_num)).2⟩

/-! ## C8: dictionary rendering is not a function of the map's contents

`writeVal`'s `PDFDict` case iterates a Go map with `for key, val := range v`
(pdf.go line 97).  Go's map iteration order is unspecified and deliberately
randomized per loop, so two renderings of the same dictionary in one run
may visit the entries in different orders.  In the embedding a `PDFDict` is
an association list carrying one possible iteration order; two association
lists that are permutations of each other denote the same Go map.  The
theorem exhibits a two-entry dictionary whose two iteration orders render
to different bytes: the serialized form is a function of the iteration
order the runtime happens to pick, not of the dictionary's contents and
insertion history alone. -/
theorem C8_dict_render_order_dependent :
    ([("A", PDFVal.int 1), ("B", PDFVal.int 2)] :
        List (String × PDFVal)).Perm
      [("B", PDFVal.int 2), ("A", PDFVal.int 1)] ∧
    renderVal sampleCodecs (.dict [("A", .int 1), ("B", .int 2)]) ≠
      renderVal sampleCodecs (.dict [("B", .int 2), ("A", .int 1)]) := by
  constructor
  · exact List.Perm.swap ("B", PDFVal.int 2) ("A", PDFVal.int 1) []
  · decide

end Canvas
